import Mathlib

/-!
A verification development for the `env` Go package: a struct-tag-driven
reflective parser that populates typed configuration structures from
environment variables.

The development shallowly embeds the parsing engine of `env.go`
(`Parse`, `ParseWithPrefix`, `ParseWithFuncs`, `ParseWithPrefixFuncs`,
`doParse`, `get`, `set`, `handleSlice`, `handleTextUnmarshaler`, the
`parse*s` slice helpers, `GetAllVars` / `collectVars`) together with
models of the standard-library collaborators it calls
(`strconv.ParseBool/ParseInt/ParseUint/ParseFloat`, `time.ParseDuration`,
`os.LookupEnv` / `os.ExpandEnv`, `strings.Split` via `String.splitOn`).

Go's `reflect` values are modelled by an explicit value grammar `RVal`
carrying the type information the engine inspects (kind, element type,
struct field metadata and tags).  The process environment is passed
explicitly as an association list.  Stores through unexported struct
fields, which make `reflect` panic, are modelled by a dedicated
`Res.panicked` outcome.
-/

/-- Result of a floating-point string conversion.  The numeric value is kept
as the exact rational denoted by the literal; IEEE rounding to the nearest
representable float is not modelled (no settled claim depends on the rounded
value), but the width-dependent overflow check is. -/
inductive FloatRep where
  | finite (q : ℚ)
  | inf (neg : Bool)
  | nan
deriving DecidableEq, Repr

namespace strconv

/-- Go `strconv` errors: `ErrSyntax` and `ErrRange`. -/
inductive NumError where
  | invalidSyntax
  | outOfRange
deriving DecidableEq, Repr

/-- Numeric value of a digit character, in bases up to 10 (the engine only
uses `DecimalBase = 10`). -/
def digitVal (base : Nat) (c : Char) : Option Nat :=
  if '0' ≤ c ∧ c ≤ '9' ∧ c.toNat - '0'.toNat < base then some (c.toNat - '0'.toNat)
  else none

/-- Value of a non-empty all-digit numeral in the given base. -/
def digitsVal (base : Nat) : List Char → Option Nat
  | [] => none
  | cs => go cs 0
where
  go : List Char → Nat → Option Nat
    | [], acc => some acc
    | c :: rest, acc =>
      match digitVal base c with
      | none => none
      | some d => go rest (acc * base + d)

/-- Model of Go `strconv.ParseBool`: the exact set of accepted literals. -/
def ParseBool (s : String) : Except NumError Bool :=
  if s = "1" ∨ s = "t" ∨ s = "T" ∨ s = "TRUE" ∨ s = "true" ∨ s = "True" then .ok true
  else if s = "0" ∨ s = "f" ∨ s = "F" ∨ s = "FALSE" ∨ s = "false" ∨ s = "False" then .ok false
  else .error .invalidSyntax

/-- Model of Go `strconv.ParseUint s base bitSize` for an explicit base
(the engine always passes base 10): no sign is permitted, the digits must be
non-empty, and the value must fit in `bitSize` bits. -/
def ParseUint (s : String) (base bitSize : Nat) : Except NumError Nat :=
  match digitsVal base s.data with
  | none => .error .invalidSyntax
  | some n => if n > 2 ^ bitSize - 1 then .error .outOfRange else .ok n

/-- Model of Go `strconv.ParseInt s base bitSize` for an explicit base:
an optional sign, non-empty digits, and a range check against the signed
`bitSize`-bit interval. -/
def ParseInt (s : String) (base bitSize : Nat) : Except NumError Int :=
  match s.data with
  | [] => .error .invalidSyntax
  | c :: rest =>
    let p : Bool × List Char :=
      if c = '-' then (true, rest) else if c = '+' then (false, rest) else (false, c :: rest)
    match digitsVal base p.2 with
    | none => .error .invalidSyntax
    | some n =>
      let v : Int := if p.1 then -(n : Int) else (n : Int)
      if v < -(2 ^ (bitSize - 1) : Int) ∨ v > (2 ^ (bitSize - 1) : Int) - 1 then
        .error .outOfRange
      else .ok v

/-- Case-insensitive (ASCII) comparison of a character list with a literal,
for `strconv.ParseFloat`'s special values. -/
def lowEq (cs : List Char) (t : String) : Bool :=
  cs.map Char.toLower == t.data

/-- Model of the `special` helper of Go `strconv.ParseFloat`: `inf`,
`[+-]inf(inity)?` and unsigned `nan`, case-insensitively, matching the whole
string (Go's prefix-based variant plus the full-consumption check of
`ParseFloat`). -/
def parseSpecial (s : String) : Option FloatRep :=
  match s.data with
  | '+' :: rest =>
    if lowEq rest "inf" ∨ lowEq rest "infinity" then some (.inf false) else none
  | '-' :: rest =>
    if lowEq rest "inf" ∨ lowEq rest "infinity" then some (.inf true) else none
  | cs =>
    if lowEq cs "inf" ∨ lowEq cs "infinity" then some (.inf false)
    else if lowEq cs "nan" then some .nan
    else none

/-- Whether a character is an ASCII hexadecimal digit. -/
def isHexDig (c : Char) : Bool :=
  c.isDigit ∨ ('a' ≤ c.toLower ∧ c.toLower ≤ 'f')

/-- Model of Go `strconv`'s `underscoreOK`: underscores must sit between
digits (or follow a base prefix). -/
def underscoreOK (cs : List Char) : Bool :=
  let cs1 := match cs with
    | c :: rest => if c = '-' ∨ c = '+' then rest else c :: rest
    | [] => []
  match cs1 with
  | '0' :: x :: rest =>
    if x = 'x' ∨ x = 'X' then uGo true '0' rest else uGo false '^' cs1
  | _ => uGo false '^' cs1
where
  uGo (hex : Bool) : Char → List Char → Bool
    | saw, [] => saw ≠ '_'
    | saw, c :: rest =>
      if c.isDigit ∨ (hex ∧ ('a' ≤ c.toLower ∧ c.toLower ≤ 'f')) then uGo hex '0' rest
      else if c = '_' then saw = '0' && uGo hex '_' rest
      else if saw = '_' then false
      else uGo hex '!' rest

/-- Value of a list of hexadecimal digit characters. -/
def hexDigitsVal : List Char → Nat
  | [] => 0
  | cs => cs.foldl (fun acc c =>
      acc * 16 + (if c.isDigit then c.toNat - 48 else c.toLower.toNat - 87)) 0

/-- The smallest positive magnitude that overflows (rounds to infinity) at
the given IEEE width: one half-ulp beyond the largest finite value.  An
integer for both widths. -/
def overflowBound (bitSize : Nat) : Nat :=
  if bitSize = 32 then 2 ^ 128 - 2 ^ 103 else 2 ^ 1024 - 2 ^ 970

/-- Whether `m * base ^ e` reaches `overflowBound bitSize`, decided by exact
integer arithmetic (kept out of `ℚ` so that it evaluates by reduction). -/
def overflows (m : Nat) (base : Nat) (e : Int) (bitSize : Nat) : Bool :=
  match e with
  | .ofNat n => m * base ^ n ≥ overflowBound bitSize
  | .negSucc k => m ≥ overflowBound bitSize * base ^ (k + 1)

/-- Shared final step of the numeric branch of `ParseFloat`: range check at
the requested width, then the exact rational value `±m * base ^ e`. -/
def finishFloat (neg : Bool) (m : Nat) (base : Nat) (e : Int) (bitSize : Nat) :
    Except NumError FloatRep :=
  if overflows m base e bitSize then .error .outOfRange
  else .ok (.finite ((if neg then -1 else 1) * (m : ℚ) * (base : ℚ) ^ e))

/-- Model of the numeric branch of Go `strconv.ParseFloat` on an
underscore-free character list: decimal mantissa with optional fraction and
optional decimal exponent, or a `0x` hexadecimal mantissa with a mandatory
binary exponent; the whole input must be consumed.  The value is the exact
rational of the literal (IEEE rounding is not modelled); overflow at the
requested width is reported as `outOfRange` as in Go. -/
def readFloat (cs0 : List Char) (bitSize : Nat) : Except NumError FloatRep :=
  let p : Bool × List Char := match cs0 with
    | '-' :: rest => (true, rest)
    | '+' :: rest => (false, rest)
    | l => (false, l)
  let neg := p.1
  match p.2 with
  | '0' :: x :: rest =>
    if x = 'x' ∨ x = 'X' then
      let ds1 := rest.takeWhile isHexDig
      let r1 := rest.drop ds1.length
      let fr : List Char × List Char := match r1 with
        | '.' :: t => (t.takeWhile isHexDig, t.drop (t.takeWhile isHexDig).length)
        | l => ([], l)
      let ds2 := fr.1
      if ds1.length + ds2.length = 0 then .error .invalidSyntax
      else match fr.2 with
        | 'p' :: t | 'P' :: t =>
          let ep : Bool × List Char := match t with
            | '-' :: u => (true, u)
            | '+' :: u => (false, u)
            | u => (false, u)
          match strconv.digitsVal 10 (ep.2.takeWhile Char.isDigit) with
          | none => .error .invalidSyntax
          | some e =>
            if ep.2.drop (ep.2.takeWhile Char.isDigit).length ≠ [] then .error .invalidSyntax
            else
              finishFloat neg (hexDigitsVal (ds1 ++ ds2)) 2
                ((if ep.1 then -(e : Int) else e) - 4 * ds2.length) bitSize
        | _ => .error .invalidSyntax
    else readDec neg p.2 bitSize
  | _ => readDec neg p.2 bitSize
where
  readDec (neg : Bool) (l : List Char) (bitSize : Nat) : Except NumError FloatRep :=
    let ds1 := l.takeWhile Char.isDigit
    let r1 := l.drop ds1.length
    let fr : List Char × List Char := match r1 with
      | '.' :: t => (t.takeWhile Char.isDigit, t.drop (t.takeWhile Char.isDigit).length)
      | m => ([], m)
    let ds2 := fr.1
    if ds1.length + ds2.length = 0 then .error .invalidSyntax
    else
      let mant : Nat := (strconv.digitsVal 10 (ds1 ++ ds2)).getD 0
      match fr.2 with
      | 'e' :: t | 'E' :: t =>
        let ep : Bool × List Char := match t with
          | '-' :: u => (true, u)
          | '+' :: u => (false, u)
          | u => (false, u)
        match strconv.digitsVal 10 (ep.2.takeWhile Char.isDigit) with
        | none => .error .invalidSyntax
        | some e =>
          if ep.2.drop (ep.2.takeWhile Char.isDigit).length ≠ [] then .error .invalidSyntax
          else
            finishFloat neg mant 10 ((if ep.1 then -(e : Int) else e) - ds2.length) bitSize
      | [] => finishFloat neg mant 10 (-(ds2.length : Int)) bitSize
      | _ => .error .invalidSyntax

/-- Model of Go `strconv.ParseFloat s bitSize` (`bitSize` 32 or 64): special
values, the underscore-placement check, then the numeric grammar. -/
def ParseFloat (s : String) (bitSize : Nat) : Except NumError FloatRep :=
  match parseSpecial s with
  | some f => .ok f
  | none =>
    if s.data.contains '_' ∧ ¬underscoreOK s.data then .error .invalidSyntax
    else readFloat (s.data.filter (· ≠ '_')) bitSize

end strconv

namespace time

/-- The error cases of Go `time.ParseDuration`. -/
inductive DurErr where
  | invalid
  | missingUnit
  | unknownUnit (u : String)
deriving DecidableEq, Repr

/-- Go `time`'s `unitMap`: nanoseconds per unit. -/
def unitVal : String → Option Nat
  | "ns" => some 1
  | "us" => some 1000
  | "µs" => some 1000
  | "μs" => some 1000
  | "ms" => some 1000000
  | "s" => some 1000000000
  | "m" => some 60000000000
  | "h" => some 3600000000000
  | _ => none

/-- Value accumulation of Go `time`'s `leadingInt` over the leading digits:
`none` on overflow past `2 ^ 63`. -/
def leadingIntVal : List Char → Nat → Option Nat
  | [], x => some x
  | c :: rest, x =>
    if x > 2 ^ 63 / 10 then none
    else
      let x' := x * 10 + (c.toNat - 48)
      if x' > 2 ^ 63 then none else leadingIntVal rest x'

/-- Value accumulation of Go `time`'s `leadingFraction` over the fractional
digits: on overflow the remaining digits are consumed but ignored. -/
def leadingFracVal : List Char → Nat → Nat → Nat × Nat
  | [], x, scale => (x, scale)
  | c :: rest, x, scale =>
    if x > (2 ^ 63 - 1) / 10 then (x, scale)
    else
      let y := x * 10 + (c.toNat - 48)
      if y > 2 ^ 63 then (x, scale)
      else leadingFracVal rest y (scale * 10)

/-- The component loop of Go `time.ParseDuration`: repeatedly consume
`[0-9]*(\.[0-9]*)?unit`, accumulating nanoseconds with Go's overflow checks.
Go computes the fractional contribution in `float64`; the model uses exact
integer arithmetic with truncation. -/
def durGo : List Char → Nat → Except DurErr Nat
  | [], d => .ok d
  | c :: cs', d =>
    if ¬(c = '.' ∨ c.isDigit) then .error .invalid
    else
      let cs := c :: cs'
      let ds := cs.takeWhile Char.isDigit
      let rest1 := cs.drop ds.length
      match leadingIntVal ds 0 with
      | none => .error .invalid
      | some v =>
        let pre : Bool := ds.length != 0
        let fracDigits := match rest1 with
          | '.' :: t => t.takeWhile Char.isDigit
          | _ => []
        let fracLen := match rest1 with
          | '.' :: t => 1 + (t.takeWhile Char.isDigit).length
          | _ => 0
        let rest2 := rest1.drop fracLen
        let post : Bool := match rest1 with
          | '.' :: _ => fracDigits.length != 0
          | _ => false
        let fs := leadingFracVal fracDigits 0 1
        if !pre && !post then .error .invalid
        else
          let us := rest2.takeWhile (fun ch => ¬(ch = '.' ∨ ch.isDigit))
          if h : us = [] then .error .missingUnit
          else
            match unitVal (String.mk us) with
            | none => .error (.unknownUnit (String.mk us))
            | some unit =>
              if v > 2 ^ 63 / unit then .error .invalid
              else
                let v1 := v * unit
                let v2 := if fs.1 > 0 then v1 + (fs.1 * unit) / fs.2 else v1
                if v2 > 2 ^ 63 then .error .invalid
                else
                  let d' := d + v2
                  if d' > 2 ^ 63 then .error .invalid
                  else durGo (rest2.drop us.length) d'
termination_by cs _ => cs.length
decreasing_by
  show (rest2.drop us.length).length < cs.length
  have h1 : rest2.length ≤ rest1.length := by
    simp [rest2, List.length_drop]
  have h2 : rest1.length ≤ cs.length := by
    simp [rest1, List.length_drop]
  have h4 : 0 < us.length := List.length_pos.mpr h
  have h0 : 0 < cs.length := by simp [cs]
  simp only [List.length_drop]
  omega

/-- Go `strconv.Quote`, modelled as plain double-quoting (escaping is not
modelled; only used inside error messages). -/
def quote (s : String) : String := "\"" ++ s ++ "\""

/-- Model of Go `time.ParseDuration`: an optional sign, the special case
`"0"`, then the component loop; the result is the signed nanosecond count. -/
def ParseDuration (s : String) : Except String Int :=
  let p : Bool × List Char := match s.data with
    | '-' :: rest => (true, rest)
    | '+' :: rest => (false, rest)
    | l => (false, l)
  if p.2 = ['0'] then .ok 0
  else if p.2 = [] then .error ("time: invalid duration " ++ quote s)
  else
    match durGo p.2 0 with
    | .error .invalid => .error ("time: invalid duration " ++ quote s)
    | .error .missingUnit => .error ("time: missing unit in duration " ++ quote s)
    | .error (.unknownUnit u) =>
      .error ("time: unknown unit " ++ quote u ++ " in duration " ++ quote s)
    | .ok d =>
      if p.1 then .ok (-(d : Int))
      else if d > 2 ^ 63 - 1 then .error ("time: invalid duration " ++ quote s)
      else .ok (d : Int)

end time

/-- The process environment, modelled as an association list; `os.LookupEnv`
returns the first binding (Go's environment has unique keys). -/
abbrev Env : Type := List (String × String)

namespace os

/-- Model of Go `os.LookupEnv`. -/
def LookupEnv : Env → String → Option String
  | [], _ => none
  | (k, v) :: rest, key => if k = key then some v else LookupEnv rest key

/-- Model of Go `os.Getenv`: empty string when the key is absent. -/
def Getenv (e : Env) (key : String) : String :=
  (LookupEnv e key).getD ""

/-- Go `os.Expand`'s `isShellSpecialVar`. -/
def isShellSpecialVar (c : Char) : Bool :=
  c = '*' ∨ c = '#' ∨ c = '$' ∨ c = '@' ∨ c = '!' ∨ c = '?' ∨ c = '-' ∨ c.isDigit

/-- Go `os.Expand`'s `isAlphaNum`. -/
def isAlphaNum (c : Char) : Bool :=
  c = '_' ∨ c.isDigit ∨ ('a' ≤ c ∧ c ≤ 'z') ∨ ('A' ≤ c ∧ c ≤ 'Z')

/-- The brace-scanning arm of Go `os.Expand`'s `getShellName`, applied to the
characters after `${`: scan for the closing brace. -/
def braceScan (rest : List Char) : String × Nat :=
  match rest.findIdx? (· = '}') with
  | some 0 => ("", 2)
  | some i => (String.mk (rest.take i), i + 2)
  | none => ("", 1)

/-- Model of Go `os.Expand`'s `getShellName`, applied to the characters after
a `$`: returns the referenced name and the number of characters consumed. -/
def getShellName : List Char → String × Nat
  | [] => ("", 0)
  | '{' :: rest =>
    match rest with
    | c :: '}' :: _ =>
      if isShellSpecialVar c then (String.mk [c], 3) else braceScan rest
    | _ => braceScan rest
  | c :: rest =>
    if isShellSpecialVar c then (String.mk [c], 1)
    else
      let nm := (c :: rest).takeWhile isAlphaNum
      (String.mk nm, nm.length)

/-- Model of Go `os.Expand` over a lookup function: replaces `$NAME` and
`${NAME}` references, eats invalid `${}` syntax, and keeps a `$` that starts
no name. -/
def expandGo (lookup : String → String) : List Char → List Char
  | [] => []
  | '$' :: rest =>
    let nw := getShellName rest
    if nw.1 = "" ∧ nw.2 > 0 then expandGo lookup (rest.drop nw.2)
    else if nw.1 = "" then '$' :: expandGo lookup rest
    else (lookup nw.1).data ++ expandGo lookup (rest.drop nw.2)
  | c :: rest => c :: expandGo lookup rest
termination_by cs => cs.length
decreasing_by
  all_goals simp [List.length_drop]
  all_goals omega

/-- Model of Go `os.ExpandEnv`: expansion with environment lookup. -/
def ExpandEnv (e : Env) (s : String) : String :=
  String.mk (expandGo (fun k => Getenv e k) s.data)

end os

namespace strings

/-- Model of Go `strings.ToLower`, restricted to ASCII (the engine only
compares tag values against `"true"`). -/
def ToLower (s : String) : String :=
  String.mk (s.data.map Char.toLower)

/-- Model of Go `strings.HasSuffix`. -/
def HasSuffix (s sfx : String) : Bool :=
  sfx.data.isSuffixOf s.data

/-- The greedy left-to-right splitting loop of Go `strings.Split` for a
non-empty separator `s0 :: sep'`. -/
def splitGo (s0 : Char) (sep' : List Char) : List Char → List Char → List (List Char)
  | [], acc => [acc.reverse]
  | c :: rest, acc =>
    if (s0 :: sep').isPrefixOf (c :: rest) then
      acc.reverse :: splitGo s0 sep' ((c :: rest).drop (s0 :: sep').length) []
    else
      splitGo s0 sep' rest (c :: acc)
termination_by cs _ => cs.length
decreasing_by
  · simp [List.length_drop]
    omega
  · simp

/-- Model of Go `strings.Split`: an empty separator splits into characters,
otherwise greedy leftmost splitting on the separator. -/
def Split (s sep : String) : List String :=
  match sep.data with
  | [] => s.data.map fun c => String.mk [c]
  | c :: rest => (splitGo c rest s.data []).map String.mk

end strings

namespace url

/-- Model of Go `url.Parse`, reduced to what the engine observes: the parse
fails on ASCII control characters (Go's `CheckValid`) and otherwise succeeds;
the URL's internal structure is not modelled, the value is the source
string. -/
def Parse (s : String) : Except String String :=
  if s.data.any (fun c => c.toNat < 32 ∨ c.toNat = 127) then
    .error "net/url: invalid control character in URL"
  else .ok s

end url

namespace GoEnv

/-- A Go struct tag, as the engine reads it: ordered key-value pairs;
`reflect.StructTag.Lookup` returns the first binding. -/
abbrev Tags : Type := List (String × String)

/-- Model of `reflect.StructTag.Lookup`. -/
def tagLookup : Tags → String → Option String
  | [], _ => none
  | (k, v) :: rest, key => if k = key then some v else tagLookup rest key

/-- Model of `reflect.StructTag.Get`: empty string when the key is absent. -/
def tagGet (tags : Tags) (key : String) : String :=
  (tagLookup tags key).getD ""

mutual

/-- The Go types the engine dispatches on, as seen through `reflect`:
the scalar kinds it handles, `time.Duration` (an `Int64`-kind type whose
name is special-cased), `url.URL` (special-cased by type identity), slices,
pointers, structs with their field metadata, types implementing
`encoding.TextUnmarshaler` (`textTy`), and other opaque named types. -/
inductive Ty where
  | string
  | bool
  | int
  | int64
  | uint
  | uint64
  | float32
  | float64
  | duration
  | url
  | slice (elem : Ty)
  | ptr (elem : Ty)
  | strct (sname : String) (fields : List StructField)
  | textTy (tname : String)
  | named (tname : String)

/-- A struct field as `reflect` presents it: name, exportedness (`CanSet`
for a field of an addressable struct), tags and type. -/
inductive StructField where
  | mk (fname : String) (exported : Bool) (tags : Tags) (ty : Ty)

end

/-- Field name of a `StructField`. -/
def StructField.fname : StructField → String
  | .mk n _ _ _ => n

/-- Exportedness of a `StructField`. -/
def StructField.exported : StructField → Bool
  | .mk _ e _ _ => e

/-- Tags of a `StructField`. -/
def StructField.tags : StructField → Tags
  | .mk _ _ t _ => t

/-- Declared type of a `StructField`. -/
def StructField.ty : StructField → Ty
  | .mk _ _ _ t => t

/-- Model of `reflect.Type.String` for the types of the grammar (struct,
text-unmarshaler and opaque types carry their printed name). -/
def Ty.typeString : Ty → String
  | .string => "string"
  | .bool => "bool"
  | .int => "int"
  | .int64 => "int64"
  | .uint => "uint"
  | .uint64 => "uint64"
  | .float32 => "float32"
  | .float64 => "float64"
  | .duration => "time.Duration"
  | .url => "url.URL"
  | .slice e => "[]" ++ e.typeString
  | .ptr e => "*" ++ e.typeString
  | .strct n _ => n
  | .textTy n => n
  | .named n => n

/-- A `reflect.Value` of the grammar's types.  A `text` value records the
text last deserialised into it (`UnmarshalText` is modelled as always
succeeding); a `named` value is opaque. -/
inductive RVal where
  | string (s : String)
  | bool (b : Bool)
  | int (n : Int)
  | int64 (n : Int)
  | uint (n : Nat)
  | uint64 (n : Nat)
  | float32 (x : FloatRep)
  | float64 (x : FloatRep)
  | duration (ns : Int)
  | url (u : String)
  | slice (elem : Ty) (xs : List RVal)
  | ptr (elem : Ty) (v : Option RVal)
  | strct (sname : String) (fields : List StructField) (vals : List RVal)
  | text (tname : String) (content : Option String)
  | named (tname : String)

/-- Whether a value is a non-nil pointer (`Kind() == Ptr && !IsNil()`). -/
def RVal.isLivePtr : RVal → Bool
  | .ptr _ (some _) => true
  | _ => false

/-- The errors the engine produces, one constructor per `error` value of the
source; `multi` is the `ParseErrors` aggregate. -/
inductive GoErr where
  | notAStructPtr
  | unsupportedType
  | unsupportedSliceType
  | badPfx (p : String)
  | invalidRequiredTag (tag : String)
  | missingRequired (key : String)
  | numErr (fn : String) (num : String) (e : strconv.NumError)
  | durationErr (msg : String)
  | urlParseErr (msg : String)
  | customParserErr (msg : String)
  | fieldErr (path : String) (sname : String) (inner : GoErr)
  | multi (errs : List GoErr)

/-- The aggregate error type of the source (`type ParseErrors []error`). -/
abbrev ParseErrors : Type := List GoErr

mutual

/-- Rendering of an error (`Error()` in Go); for `multi` this is
`ParseErrors.Error`: empty for no errors, the plain message for one error,
and a numbered list under a header for several. -/
def GoErr.message : GoErr → String
  | .notAStructPtr => "expected a pointer to a Struct"
  | .unsupportedType => "type is not supported"
  | .unsupportedSliceType => "unsupported slice type"
  | .badPfx p => "prefix must end with underscore, got: \"" ++ p ++ "\""
  | .invalidRequiredTag t =>
    "invalid required tag \"" ++ t ++ "\": strconv.ParseBool: parsing \"" ++ t ++
      "\": invalid syntax"
  | .missingRequired key => "env var " ++ key ++ " was missing and is required"
  | .numErr fn num e =>
    "strconv." ++ fn ++ ": parsing \"" ++ num ++ "\": " ++
      (match e with
        | .invalidSyntax => "invalid syntax"
        | .outOfRange => "value out of range")
  | .durationErr m => m
  | .urlParseErr m => "unable to complete URL parse: " ++ m
  | .customParserErr m => "custom parser error: " ++ m
  | .fieldErr path sname inner =>
    "field '" ++ path ++ "' in " ++ sname ++ ": " ++ inner.message
  | .multi errs =>
    match errs with
    | [] => ""
    | [e] => e.message
    | es => "multiple parsing errors (" ++ toString es.length ++ "):" ++ GoErr.numbered 1 es

/-- The numbered lines of `ParseErrors.Error`. -/
def GoErr.numbered : Nat → List GoErr → String
  | _, [] => ""
  | i, e :: rest => "\n  " ++ toString i ++ ". " ++ e.message ++ GoErr.numbered (i + 1) rest

end

/-- Model of `ParserFunc`: a custom parsing function. -/
abbrev ParserFunc : Type := String → Except String RVal

/-- Model of `CustomParsers`: the custom-parser registry, keyed by type. -/
abbrev CustomParsers : Type := List (Ty × ParserFunc)

mutual

/-- Type equality test used for registry lookup (`reflect.Type` keys compare
by identity in Go). -/
def Ty.beq : Ty → Ty → Bool
  | .string, .string => true
  | .bool, .bool => true
  | .int, .int => true
  | .int64, .int64 => true
  | .uint, .uint => true
  | .uint64, .uint64 => true
  | .float32, .float32 => true
  | .float64, .float64 => true
  | .duration, .duration => true
  | .url, .url => true
  | .slice a, .slice b => a.beq b
  | .ptr a, .ptr b => a.beq b
  | .strct n fs, .strct m gs => n = m && fieldsBeq fs gs
  | .textTy n, .textTy m => n = m
  | .named n, .named m => n = m
  | _, _ => false

/-- Field-list equality for `Ty.beq`. -/
def fieldsBeq : List StructField → List StructField → Bool
  | [], [] => true
  | .mk n e t ty :: fs, .mk m e2 t2 ty2 :: gs =>
    n = m && e = e2 && t = t2 && ty.beq ty2 && fieldsBeq fs gs
  | _, _ => false

end

/-- Registry lookup (`funcMap[refType.Type]`). -/
def lookupParser : CustomParsers → Ty → Option ParserFunc
  | [], _ => none
  | (t, f) :: rest, ty => if t.beq ty then some f else lookupParser rest ty

/-- The result of a conversion step: a new field value, an error, or a
`reflect` panic (a store through an unexported field). -/
inductive CRes where
  | ok (v : RVal)
  | err (e : GoErr)
  | panicked (msg : String)

/-- A `reflect` store (`Set`, `SetString`, `SetInt`, ...): succeeds on a
settable (exported) field and panics otherwise. -/
def store (exported : Bool) (v : RVal) : CRes :=
  if exported then .ok v
  else .panicked "reflect: Set using value obtained using unexported field"

/-- Model of `parseInts`: elementwise `strconv.ParseInt` at 32 bits. -/
def parseInts : List String → Except GoErr (List Int)
  | [] => .ok []
  | v :: rest =>
    match strconv.ParseInt v 10 32 with
    | .error e => .error (.numErr "ParseInt" v e)
    | .ok n =>
      match parseInts rest with
      | .error e => .error e
      | .ok ns => .ok (n :: ns)

/-- Model of `parseInt64s`: elementwise `strconv.ParseInt` at 64 bits. -/
def parseInt64s : List String → Except GoErr (List Int)
  | [] => .ok []
  | v :: rest =>
    match strconv.ParseInt v 10 64 with
    | .error e => .error (.numErr "ParseInt" v e)
    | .ok n =>
      match parseInt64s rest with
      | .error e => .error e
      | .ok ns => .ok (n :: ns)

/-- Model of `parseUint64s`: elementwise `strconv.ParseUint` at 64 bits. -/
def parseUint64s : List String → Except GoErr (List Nat)
  | [] => .ok []
  | v :: rest =>
    match strconv.ParseUint v 10 64 with
    | .error e => .error (.numErr "ParseUint" v e)
    | .ok n =>
      match parseUint64s rest with
      | .error e => .error e
      | .ok ns => .ok (n :: ns)

/-- Model of `parseFloat32s`: elementwise `strconv.ParseFloat` at 32 bits. -/
def parseFloat32s : List String → Except GoErr (List FloatRep)
  | [] => .ok []
  | v :: rest =>
    match strconv.ParseFloat v 32 with
    | .error e => .error (.numErr "ParseFloat" v e)
    | .ok x =>
      match parseFloat32s rest with
      | .error e => .error e
      | .ok xs => .ok (x :: xs)

/-- Model of `parseFloat64s`: elementwise `strconv.ParseFloat` at 64 bits. -/
def parseFloat64s : List String → Except GoErr (List FloatRep)
  | [] => .ok []
  | v :: rest =>
    match strconv.ParseFloat v 64 with
    | .error e => .error (.numErr "ParseFloat" v e)
    | .ok x =>
      match parseFloat64s rest with
      | .error e => .error e
      | .ok xs => .ok (x :: xs)

/-- Model of `parseBools`: elementwise `strconv.ParseBool`. -/
def parseBools : List String → Except GoErr (List Bool)
  | [] => .ok []
  | v :: rest =>
    match strconv.ParseBool v with
    | .error e => .error (.numErr "ParseBool" v e)
    | .ok b =>
      match parseBools rest with
      | .error e => .error e
      | .ok bs => .ok (b :: bs)

/-- Model of `parseDurations`: elementwise `time.ParseDuration`. -/
def parseDurations : List String → Except GoErr (List Int)
  | [] => .ok []
  | v :: rest =>
    match time.ParseDuration v with
    | .error m => .error (.durationErr m)
    | .ok d =>
      match parseDurations rest with
      | .error e => .error e
      | .ok ds => .ok (d :: ds)

/-- Model of `parseUrls`: elementwise `url.Parse`. -/
def parseUrls : List String → Except GoErr (List String)
  | [] => .ok []
  | v :: rest =>
    match url.Parse v with
    | .error m => .error (.urlParseErr m)
    | .ok u =>
      match parseUrls rest with
      | .error e => .error e
      | .ok us => .ok (u :: us)

/-- Whether a pointer to the type implements `encoding.TextUnmarshaler`. -/
def implsTextUnmarshaler : Ty → Bool
  | .textTy _ => true
  | _ => false

/-- Model of `parseTextUnmarshalers`: build the element values by
deserialising each piece (always succeeding in the model), wrapping in a
fresh pointer for pointer element types, then store the slice. -/
def parseTextUnmarshalers (elem : Ty) (exported : Bool) (data : List String) : CRes :=
  let mkElem (v : String) : RVal :=
    match elem with
    | .ptr (.textTy tname) => .ptr (.textTy tname) (some (.text tname (some v)))
    | .textTy tname => .text tname (some v)
    | other => .named other.typeString
  store exported (.slice elem (data.map mkElem))

/-- Model of `handleSlice`: default the separator to a comma, split, then
dispatch on the slice's element type; unrecognised element types must
(possibly behind a pointer) implement `encoding.TextUnmarshaler`, else the
field fails with `ErrUnsupportedSliceType`. -/
def handleSlice (field : RVal) (exported : Bool) (value separator : String) : CRes :=
  let separator := if separator = "" then "," else separator
  let splitData := strings.Split value separator
  match field with
  | .slice elem _ =>
    match elem with
    | .string => store exported (.slice .string (splitData.map RVal.string))
    | .int =>
      match parseInts splitData with
      | .error e => .err e
      | .ok ns => store exported (.slice .int (ns.map RVal.int))
    | .int64 =>
      match parseInt64s splitData with
      | .error e => .err e
      | .ok ns => store exported (.slice .int64 (ns.map RVal.int64))
    | .uint64 =>
      match parseUint64s splitData with
      | .error e => .err e
      | .ok ns => store exported (.slice .uint64 (ns.map RVal.uint64))
    | .float32 =>
      match parseFloat32s splitData with
      | .error e => .err e
      | .ok xs => store exported (.slice .float32 (xs.map RVal.float32))
    | .float64 =>
      match parseFloat64s splitData with
      | .error e => .err e
      | .ok xs => store exported (.slice .float64 (xs.map RVal.float64))
    | .bool =>
      match parseBools splitData with
      | .error e => .err e
      | .ok bs => store exported (.slice .bool (bs.map RVal.bool))
    | .duration =>
      match parseDurations splitData with
      | .error e => .err e
      | .ok ds => store exported (.slice .duration (ds.map RVal.duration))
    | .url =>
      match parseUrls splitData with
      | .error e => .err e
      | .ok us => store exported (.slice .url (us.map RVal.url))
    | elemType =>
      let elemType' := match elemType with
        | .ptr inner => inner
        | t => t
      if ¬implsTextUnmarshaler elemType' then .err .unsupportedSliceType
      else parseTextUnmarshalers elemType exported splitData
  | _ => .err .unsupportedSliceType

/-- Model of `handleTextUnmarshaler`: on a pointer field, allocate when nil
and deserialise into the pointee; otherwise deserialise through the field's
address.  All the `reflect` operations involved (`Set` of the fresh pointer,
`Interface` on the field or its address) panic on an unexported field, before
any capability test. -/
def handleTextUnmarshaler (field : RVal) (exported : Bool) (value : String) : CRes :=
  if ¬exported then
    .panicked "reflect: Interface of value obtained using unexported field"
  else
    match field with
    | .ptr elem _ =>
      match elem with
      | .textTy tname => .ok (.ptr elem (some (.text tname (some value))))
      | _ => .err .unsupportedType
    | .text tname _ => .ok (.text tname (some value))
    | _ => .err .unsupportedType

/-- Model of `set`: custom parser first, then the `url.URL` special case,
then the kind switch with its built-in conversions, falling back to
`handleTextUnmarshaler`. -/
def set (field : RVal) (refType : StructField) (value : String)
    (funcMap : CustomParsers) : CRes :=
  match lookupParser funcMap refType.ty with
  | some parserFunc =>
    match parserFunc value with
    | .error m => .err (.customParserErr m)
    | .ok val => store refType.exported val
  | none =>
    match refType.ty, field with
    | .url, _ =>
      match url.Parse value with
      | .error m => .err (.urlParseErr m)
      | .ok u => store refType.exported (.url u)
    | _, .slice _ _ =>
      handleSlice field refType.exported value (tagGet refType.tags "envSeparator")
    | _, .string _ => store refType.exported (.string value)
    | _, .bool _ =>
      match strconv.ParseBool value with
      | .error e => .err (.numErr "ParseBool" value e)
      | .ok b => store refType.exported (.bool b)
    | _, .int _ =>
      match strconv.ParseInt value 10 32 with
      | .error e => .err (.numErr "ParseInt" value e)
      | .ok n => store refType.exported (.int n)
    | _, .uint _ =>
      match strconv.ParseUint value 10 32 with
      | .error e => .err (.numErr "ParseUint" value e)
      | .ok n => store refType.exported (.uint n)
    | _, .float32 _ =>
      match strconv.ParseFloat value 32 with
      | .error e => .err (.numErr "ParseFloat" value e)
      | .ok x => store refType.exported (.float32 x)
    | _, .float64 _ =>
      match strconv.ParseFloat value 64 with
      | .error e => .err (.numErr "ParseFloat" value e)
      | .ok x => store refType.exported (.float64 x)
    | _, .int64 _ | _, .duration _ =>
      if refType.ty.typeString = "time.Duration" then
        match time.ParseDuration value with
        | .error m => .err (.durationErr m)
        | .ok d => store refType.exported (.duration d)
      else
        match strconv.ParseInt value 10 64 with
        | .error e => .err (.numErr "ParseInt" value e)
        | .ok n => store refType.exported (.int64 n)
    | _, .uint64 _ =>
      match strconv.ParseUint value 10 64 with
      | .error e => .err (.numErr "ParseUint" value e)
      | .ok n => store refType.exported (.uint64 n)
    | _, _ => handleTextUnmarshaler field refType.exported value

/-- Events recorded for the `OnEnvVarSet` callback: one `(field name, value)`
pair per successfully set field, in order. -/
abbrev Events : Type := List (String × String)

/-- The outcome of a walk: the updated values and the Go return value, or a
propagated `reflect` panic. -/
inductive Res (α : Type) where
  | ok (a : α)
  | panicked (msg : String)

/-- Model of `get`: resolve the key (prefix + `env` tag), parse the
`required` tag, look the key up, substitute the default on a miss, fail on a
required miss, and expand when the `envExpand` tag is `true`
(case-insensitively). -/
def get (env : Env) (field : StructField) (pfx : String) : Except GoErr String :=
  let key := pfx ++ tagGet field.tags "env"
  let req : Except GoErr Bool :=
    match tagLookup field.tags "required" with
    | none => .ok false
    | some reqTag =>
      match strconv.ParseBool reqTag with
      | .error _ => .error (.invalidRequiredTag reqTag)
      | .ok b => .ok b
  match req with
  | .error e => .error e
  | .ok envRequired =>
    let lookedUp := os.LookupEnv env key
    if lookedUp.isNone ∧ envRequired then .error (.missingRequired key)
    else
      let value :=
        match lookedUp with
        | some v => v
        | none => tagGet field.tags "envDefault"
      let expandVar := tagGet field.tags "envExpand"
      let value := if strings.ToLower expandVar = "true" then os.ExpandEnv env value else value
      .ok value

/-- The Go return value of a completed walk: `nil` for no recorded errors,
the accumulated `ParseErrors` otherwise. -/
def finishErr (errs : List GoErr) : Option GoErr :=
  match errs with
  | [] => none
  | es => some (.multi es)

mutual

/-- The field loop of `doParse`, with the loop state (updated values so far,
callback events so far, accumulated `parseErrors`) made explicit.  Per field:
a non-nil settable pointer field is re-parsed as its own destination and an
error there is returned immediately, discarding `parseErrors`; otherwise the
field is resolved with `get` (errors recorded, wrapped with the field path
and struct name, and the walk continues), an empty resolved value recurses
into struct fields and otherwise skips, and a non-empty value is converted
and assigned by `set` (errors recorded likewise, successes appending an
`OnEnvVarSet` event). -/
def doParseGo (env : Env) (funcMap : CustomParsers) :
    List StructField → List RVal → String → String → String →
    List RVal → Events → List GoErr → Res (List RVal × Events × Option GoErr)
  | [], vals, _, _, _, done, events, errs => .ok (done ++ vals, events, finishErr errs)
  | _ :: _, [], _, _, _, done, events, errs => .ok (done, events, finishErr errs)
  | f :: fs, v :: vs, sname, fieldPath, pfx, done, events, errs =>
    let currentPath := if fieldPath = "" then f.fname else fieldPath ++ "." ++ f.fname
    if v.isLivePtr ∧ f.exported then
      match ParseWithPrefixFuncs env v pfx funcMap with
      | .panicked m => .panicked m
      | .ok (v', evs2, some e) => .ok (done ++ v' :: vs, events ++ evs2, some e)
      | .ok (v', evs2, none) =>
        doParseGo env funcMap fs vs sname fieldPath pfx (done ++ [v']) (events ++ evs2) errs
    else
      match get env f pfx with
      | .error e =>
        doParseGo env funcMap fs vs sname fieldPath pfx (done ++ [v]) events
          (errs ++ [.fieldErr currentPath sname e])
      | .ok value =>
        if value = "" then
          match doParseEmpty env funcMap v currentPath pfx with
          | .panicked m => .panicked m
          | .ok (v', evs2, some e) =>
            doParseGo env funcMap fs vs sname fieldPath pfx
              (done ++ [v']) (events ++ evs2) (errs ++ [e])
          | .ok (v', evs2, none) =>
            doParseGo env funcMap fs vs sname fieldPath pfx
              (done ++ [v']) (events ++ evs2) errs
        else
          match set v f value funcMap with
          | .panicked m => .panicked m
          | .err e =>
            doParseGo env funcMap fs vs sname fieldPath pfx (done ++ [v]) events
              (errs ++ [.fieldErr currentPath sname e])
          | .ok v' =>
            doParseGo env funcMap fs vs sname fieldPath pfx (done ++ [v'])
              (events ++ [(f.fname, value)]) errs
termination_by _ vals _ _ _ _ _ _ => (sizeOf vals, 0)

/-- The empty-resolved-value case of the field loop (source lines 186-194,
factored out): a struct-kind field is recursed into with the extended field
path, any other field is left untouched with no error. -/
def doParseEmpty (env : Env) (funcMap : CustomParsers) (v : RVal)
    (currentPath pfx : String) : Res (RVal × Events × Option GoErr) :=
  match v with
  | .strct nsname nflds nvals =>
    match doParse env funcMap nflds nvals nsname currentPath pfx with
    | .panicked m => .panicked m
    | .ok (nvals', evs2, eOpt) => .ok (.strct nsname nflds nvals', evs2, eOpt)
  | other => .ok (other, [], none)
termination_by (sizeOf v, 2)

/-- Model of `doParse`: run the field loop with empty state. -/
def doParse (env : Env) (funcMap : CustomParsers) (flds : List StructField)
    (vals : List RVal) (sname fieldPath pfx : String) :
    Res (List RVal × Events × Option GoErr) :=
  doParseGo env funcMap flds vals sname fieldPath pfx [] [] []
termination_by (sizeOf vals, 1)

/-- Model of `ParseWithPrefixFuncs`: reject a non-empty prefix that does not
end in an underscore, require a pointer to a struct, and run the walk on the
pointed-to struct. -/
def ParseWithPrefixFuncs (env : Env) (v : RVal) (pfx : String)
    (funcMap : CustomParsers) : Res (RVal × Events × Option GoErr) :=
  if pfx ≠ "" ∧ ¬strings.HasSuffix pfx "_" then .ok (v, [], some (.badPfx pfx))
  else parseDest env v pfx funcMap
termination_by (sizeOf v, 2)

/-- The destination checks and walk launch of `ParseWithPrefixFuncs` (source
lines 146-155, factored out): anything but a pointer to a struct is rejected
with `ErrNotAStructPtr`; otherwise the pointed-to struct is walked and the
updated value wrapped back. -/
def parseDest (env : Env) (v : RVal) (pfx : String) (funcMap : CustomParsers) :
    Res (RVal × Events × Option GoErr) :=
  match v with
  | .ptr elem (some (.strct sname flds vals)) =>
    match doParse env funcMap flds vals sname "" pfx with
    | .panicked m => .panicked m
    | .ok (vals', events, errOpt) =>
      .ok (.ptr elem (some (.strct sname flds vals')), events, errOpt)
  | other => .ok (other, [], some .notAStructPtr)
termination_by (sizeOf v, 1)

end

/-- Model of `Parse`: no prefix, no custom parsers. -/
def Parse (env : Env) (v : RVal) : Res (RVal × Events × Option GoErr) :=
  ParseWithPrefixFuncs env v "" []

/-- Model of `ParseWithPrefix`: check the prefix, then delegate. -/
def ParseWithPrefix (env : Env) (v : RVal) (pfx : String) :
    Res (RVal × Events × Option GoErr) :=
  if pfx ≠ "" ∧ ¬strings.HasSuffix pfx "_" then .ok (v, [], some (.badPfx pfx))
  else ParseWithPrefixFuncs env v pfx []

/-- Model of `ParseWithFuncs`: no prefix, custom parsers. -/
def ParseWithFuncs (env : Env) (v : RVal) (funcMap : CustomParsers) :
    Res (RVal × Events × Option GoErr) :=
  ParseWithPrefixFuncs env v "" funcMap

/-- Model of `VarInfo` (the `Type` field is called `TypeStr`, since `Type` is
reserved in Lean). -/
structure VarInfo where
  Name : String
  FieldName : String
  FieldPath : String
  Required : Bool
  Default : String
  TypeStr : String
  HasDefault : Bool
deriving DecidableEq, Repr

/-- Model of `collectVars`: walk the fields in declaration order; a field
without an `env` tag contributes no entry but a struct-kind one is recursed
into; a tagged field contributes one entry (required flag parsed leniently,
default and `HasDefault` from the `envDefault` tag) and is additionally
recursed into when it is itself a struct.  Pointer fields are never
followed.  The environment is not consulted. -/
def collectVars : List StructField → List RVal → String → String → List VarInfo →
    List VarInfo
  | [], _, _, _, vars => vars
  | _ :: _, [], _, _, vars => vars
  | f :: fs, v :: vs, fieldPath, pfx, vars =>
    let currentPath := if fieldPath = "" then f.fname else fieldPath ++ "." ++ f.fname
    let envTag := tagGet f.tags "env"
    if envTag = "" then
      let vars' :=
        match v with
        | .strct _ nflds nvals => collectVars nflds nvals currentPath pfx vars
        | _ => vars
      collectVars fs vs fieldPath pfx vars'
    else
      let required :=
        let reqTag := tagGet f.tags "required"
        if reqTag ≠ "" then
          match strconv.ParseBool reqTag with
          | .ok b => b
          | .error _ => false
        else false
      let defaultValue := tagGet f.tags "envDefault"
      let info : VarInfo :=
        { Name := pfx ++ envTag
          FieldName := f.fname
          FieldPath := currentPath
          Required := required
          Default := defaultValue
          TypeStr := f.ty.typeString
          HasDefault := defaultValue ≠ "" }
      let vars1 := vars ++ [info]
      let vars2 :=
        match v with
        | .strct _ nflds nvals => collectVars nflds nvals currentPath pfx vars1
        | _ => vars1
      collectVars fs vs fieldPath pfx vars2
termination_by _ vals _ _ _ => sizeOf vals

/-- Model of `GetAllVars`: require a pointer to a struct, then collect. -/
def GetAllVars (v : RVal) (pfx : String) : Except GoErr (List VarInfo) :=
  match v with
  | .ptr _ (some (.strct _ flds vals)) => .ok (collectVars flds vals "" pfx [])
  | _ => .error .notAStructPtr

/-! Statement vocabulary: small predicates and observers over the embedded
engine, used by the claim theorems. -/

/-- Whether a conversion result is an error. -/
def CRes.isErr : CRes → Bool
  | .err _ => true
  | _ => false

/-- Whether a value's kind is `Struct`. -/
def RVal.isStructKind : RVal → Bool
  | .strct _ _ _ => true
  | _ => false

/-- Whether a value's kind is `Ptr`. -/
def RVal.isPtrKind : RVal → Bool
  | .ptr _ _ => true
  | _ => false

/-- The key a field resolves to: prefix concatenated with the `env` tag. -/
def envKey (f : StructField) (p : String) : String :=
  p ++ tagGet f.tags "env"

/-- The field is marked required: a `required` tag that parses to `true`. -/
def isRequired (f : StructField) : Prop :=
  ∃ t, tagLookup f.tags "required" = some t ∧ strconv.ParseBool t = .ok true

/-- The field is not required: no `required` tag, or one parsing to
`false`. -/
def notRequired (f : StructField) : Prop :=
  tagLookup f.tags "required" = none ∨
    ∃ t, tagLookup f.tags "required" = some t ∧ strconv.ParseBool t = .ok false

/-- The `required` tag is well formed: absent or a parseable boolean. -/
def reqWF (f : StructField) : Prop :=
  tagLookup f.tags "required" = none ∨
    ∃ t b, tagLookup f.tags "required" = some t ∧ strconv.ParseBool t = .ok b

mutual

/-- The field paths carried by an error tree (the aggregate is transparent;
a wrapped field error carries exactly its path). -/
def errPaths : GoErr → List String
  | .multi es => errPathsList es
  | .fieldErr p _ _ => [p]
  | _ => []

/-- `errPaths` over a list of errors, in order. -/
def errPathsList : List GoErr → List String
  | [] => []
  | e :: rest => errPaths e ++ errPathsList rest

end

/-- The paths of an optional error. -/
def errPathsOpt : Option GoErr → List String
  | none => []
  | some e => errPaths e

/-- Dotted path concatenation as the walker builds it. -/
def pathAppend (fp n : String) : String :=
  if fp = "" then n else fp ++ "." ++ n

mutual

/-- All field paths a walk of the given fields can ever report, in
declaration order: each field's own path followed by the paths of its
nested struct fields. -/
def fieldPaths : List StructField → List RVal → String → List String
  | [], _, _ => []
  | _ :: _, [], _ => []
  | f :: fs, v :: vs, fp =>
    (pathAppend fp f.fname :: valPaths v (pathAppend fp f.fname)) ++ fieldPaths fs vs fp

/-- Nested paths of a single value: only struct values contribute. -/
def valPaths : RVal → String → List String
  | .strct _ nflds nvals, cur => fieldPaths nflds nvals cur
  | _, _ => []

end

mutual

/-- No non-nil pointer occurs at a position the walker visits. -/
def RVal.noLive : RVal → Bool
  | .ptr _ (some _) => false
  | .strct _ _ vals => noLives vals
  | _ => true

/-- `RVal.noLive` over the values of a struct. -/
def noLives : List RVal → Bool
  | [] => true
  | v :: vs => v.noLive && noLives vs

end

/-- Field names are non-empty and contain no dot. -/
def namesOK : List StructField → Bool
  | [] => true
  | f :: fs => (f.fname ≠ "" ∧ '.' ∉ f.fname.data : Bool) && namesOK fs

mutual

/-- Well-formedness of a walked tree, as Go guarantees it for real structs:
at every struct level the field names are distinct, non-empty and dot-free
(and nested struct values are well formed in turn). -/
def wfVal : RVal → Bool
  | .strct _ nflds nvals =>
    decide ((nflds.map StructField.fname).Nodup) && namesOK nflds && wfVals nvals
  | _ => true

/-- `wfVal` over the values of a struct. -/
def wfVals : List RVal → Bool
  | [] => true
  | v :: vs => wfVal v && wfVals vs

end

/-- Specification-side restatement of the amended introspection claim: the
entries `collectVars` should produce, written as a direct (non-accumulating)
recursion — one entry per `env`-tagged field, recursing into struct-kind
field values (never through pointers), in declaration order. -/
def varsSpec : List StructField → List RVal → String → String → List VarInfo
  | [], _, _, _ => []
  | _ :: _, [], _, _ => []
  | f :: fs, v :: vs, fp, pfx =>
    let cur := pathAppend fp f.fname
    let envTag := tagGet f.tags "env"
    let self : List VarInfo :=
      if envTag = "" then []
      else
        [{ Name := pfx ++ envTag
           FieldName := f.fname
           FieldPath := cur
           Required :=
             (let reqTag := tagGet f.tags "required"
              if reqTag ≠ "" then
                match strconv.ParseBool reqTag with
                | .ok b => b
                | .error _ => false
              else false)
           Default := tagGet f.tags "envDefault"
           TypeStr := f.ty.typeString
           HasDefault := tagGet f.tags "envDefault" ≠ "" }]
    let nested : List VarInfo :=
      match v with
      | .strct _ nflds nvals => varsSpec nflds nvals cur pfx
      | _ => []
    self ++ nested ++ varsSpec fs vs fp pfx
termination_by _ vals _ _ => sizeOf vals

/-! Concrete fixtures used by the examples, witnesses and
counterexamples. -/

/-- An exported `int` field mapped to `PORT`. -/
def portField : StructField := .mk "Port" true [("env", "PORT")] .int

/-- The one-field `Config` struct type of the prefix round-trip example. -/
def cfgTy : Ty := .strct "Config" [portField]

/-- A destination value for the round-trip example: `&Config{Port: 0}`. -/
def cfgVal : RVal := .ptr cfgTy (some (.strct "Config" [portField] [.int 0]))

/-- A string field with expansion enabled and default `${HOST}:${PORT}`. -/
def expField : StructField :=
  .mk "Addr" true [("env", "ADDR"), ("envDefault", "${HOST}:${PORT}"), ("envExpand", "true")]
    .string

/-- A nil pointer field carrying `env` and `required` tags. -/
def nilPtrReqField : StructField :=
  .mk "P" true [("env", "X"), ("required", "true")] (.ptr (.textTy "TM"))

/-- Destination with a single nil-pointer required field (`&C2S{P: nil}`). -/
def nilPtrReqVal : RVal :=
  .ptr (.strct "C2S" [nilPtrReqField]) (some (.strct "C2S" [nilPtrReqField]
    [.ptr (.textTy "TM") none]))

/-- An inner struct with one required string field `X`. -/
def innerReqFields : List StructField :=
  [.mk "X" true [("env", "X"), ("required", "true")] .string]

/-- The inner struct type of the pointer-abort counterexample. -/
def innerReqTy : Ty := .strct "Inner" innerReqFields

/-- Fields of the pointer-abort counterexample: a non-nil pointer to a
struct with a required field, then a second required field `Y`. -/
def abortFields : List StructField :=
  [.mk "P" true [] (.ptr innerReqTy),
   .mk "Y" true [("env", "Y"), ("required", "true")] .string]

/-- Destination for the pointer-abort counterexample. -/
def abortVal : RVal :=
  .ptr (.strct "Outer" abortFields) (some (.strct "Outer" abortFields
    [.ptr innerReqTy (some (.strct "Inner" innerReqFields [.string ""])),
     .string ""]))

/-- Fields of the three-failure aggregation example: two required fields and
one `int` field fed an invalid number. -/
def threeErrFields : List StructField :=
  [.mk "A" true [("env", "A"), ("required", "true")] .string,
   .mk "B" true [("env", "B"), ("required", "true")] .string,
   .mk "N" true [("env", "N")] .int]

/-- Destination for the three-failure aggregation example. -/
def threeErrVal : RVal :=
  .ptr (.strct "Three" threeErrFields) (some (.strct "Three" threeErrFields
    [.string "", .string "", .int 0]))

/-- Inner struct with one plain tagged field, used behind a pointer. -/
def innerTaggedFields : List StructField :=
  [.mk "S" true [("env", "X")] .string]

/-- Fields of the `GetAllVars`-vs-`Parse` counterexample: one non-nil
pointer to a struct whose field is mapped. -/
def ptrOnlyFields : List StructField :=
  [.mk "P" true [] (.ptr (.strct "In9" innerTaggedFields))]

/-- Destination for the `GetAllVars`-vs-`Parse` counterexample. -/
def ptrOnlyVal : RVal :=
  .ptr (.strct "Out9" ptrOnlyFields) (some (.strct "Out9" ptrOnlyFields
    [.ptr (.strct "In9" innerTaggedFields)
      (some (.strct "In9" innerTaggedFields [.string ""]))]))

/-- Fields of the two-entry introspection example: one required field
without default, one optional field with a default. -/
def twoVarFields : List StructField :=
  [.mk "R" true [("env", "REQ"), ("required", "true")] .string,
   .mk "O" true [("env", "OPT"), ("envDefault", "fallback")] .int]

/-- Destination for the two-entry introspection example. -/
def twoVarVal : RVal :=
  .ptr (.strct "Two" twoVarFields) (some (.strct "Two" twoVarFields
    [.string "", .int 0]))

end GoEnv

namespace GoEnv

/-! Step lemmas for the field loop and `get`, shared by the claim
theorems. -/

theorem doParseGo_nil (env : Env) (fm : CustomParsers) (vals : List RVal)
    (sname fp p : String) (done : List RVal) (evs : Events) (errs : List GoErr) :
    doParseGo env fm [] vals sname fp p done evs errs =
      .ok (done ++ vals, evs, finishErr errs) := by
  rw [doParseGo]

theorem doParseGo_ptr_ok (env : Env) (fm : CustomParsers) (f : StructField)
    (fs : List StructField) (v : RVal) (vs : List RVal)
    (sname fp p : String) (done : List RVal) (evs : Events) (errs : List GoErr)
    (hl : v.isLivePtr = true) (he : f.exported = true)
    (v' : RVal) (evs2 : Events)
    (hw : ParseWithPrefixFuncs env v p fm = .ok (v', evs2, none)) :
    doParseGo env fm (f :: fs) (v :: vs) sname fp p done evs errs =
      doParseGo env fm fs vs sname fp p (done ++ [v']) (evs ++ evs2) errs := by
  rw [doParseGo, if_pos ⟨hl, he⟩, hw]

theorem doParseGo_ptr_abort (env : Env) (fm : CustomParsers) (f : StructField)
    (fs : List StructField) (v : RVal) (vs : List RVal)
    (sname fp p : String) (done : List RVal) (evs : Events) (errs : List GoErr)
    (hl : v.isLivePtr = true) (he : f.exported = true)
    (v' : RVal) (evs2 : Events) (e : GoErr)
    (hw : ParseWithPrefixFuncs env v p fm = .ok (v', evs2, some e)) :
    doParseGo env fm (f :: fs) (v :: vs) sname fp p done evs errs =
      .ok (done ++ v' :: vs, evs ++ evs2, some e) := by
  rw [doParseGo, if_pos ⟨hl, he⟩, hw]

theorem doParseGo_get_err (env : Env) (fm : CustomParsers) (f : StructField)
    (fs : List StructField) (v : RVal) (vs : List RVal)
    (sname fp p : String) (done : List RVal) (evs : Events) (errs : List GoErr)
    (hp : ¬(v.isLivePtr = true ∧ f.exported = true))
    (e : GoErr) (hg : get env f p = .error e) :
    doParseGo env fm (f :: fs) (v :: vs) sname fp p done evs errs =
      doParseGo env fm fs vs sname fp p (done ++ [v]) evs
        (errs ++ [.fieldErr (pathAppend fp f.fname) sname e]) := by
  rw [doParseGo, if_neg hp, hg]
  simp [pathAppend]

theorem doParseGo_set_ok (env : Env) (fm : CustomParsers) (f : StructField)
    (fs : List StructField) (v : RVal) (vs : List RVal)
    (sname fp p : String) (done : List RVal) (evs : Events) (errs : List GoErr)
    (hp : ¬(v.isLivePtr = true ∧ f.exported = true))
    (value : String) (hg : get env f p = .ok value) (hne : value ≠ "")
    (v' : RVal) (hs : set v f value fm = .ok v') :
    doParseGo env fm (f :: fs) (v :: vs) sname fp p done evs errs =
      doParseGo env fm fs vs sname fp p (done ++ [v']) (evs ++ [(f.fname, value)]) errs := by
  rw [doParseGo, if_neg hp, hg]
  simp [pathAppend, hne, hs]

theorem doParseGo_set_err (env : Env) (fm : CustomParsers) (f : StructField)
    (fs : List StructField) (v : RVal) (vs : List RVal)
    (sname fp p : String) (done : List RVal) (evs : Events) (errs : List GoErr)
    (hp : ¬(v.isLivePtr = true ∧ f.exported = true))
    (value : String) (hg : get env f p = .ok value) (hne : value ≠ "")
    (e : GoErr) (hs : set v f value fm = .err e) :
    doParseGo env fm (f :: fs) (v :: vs) sname fp p done evs errs =
      doParseGo env fm fs vs sname fp p (done ++ [v]) evs
        (errs ++ [.fieldErr (pathAppend fp f.fname) sname e]) := by
  rw [doParseGo, if_neg hp, hg]
  simp [pathAppend, hne, hs]

theorem doParseGo_skip (env : Env) (fm : CustomParsers) (f : StructField)
    (fs : List StructField) (v : RVal) (vs : List RVal)
    (sname fp p : String) (done : List RVal) (evs : Events) (errs : List GoErr)
    (hp : ¬(v.isLivePtr = true ∧ f.exported = true))
    (hg : get env f p = .ok "") (hns : v.isStructKind = false) :
    doParseGo env fm (f :: fs) (v :: vs) sname fp p done evs errs =
      doParseGo env fm fs vs sname fp p (done ++ [v]) evs errs := by
  rw [doParseGo, if_neg hp, hg]
  have hempty : ∀ cp, doParseEmpty env fm v cp p = .ok (v, [], none) := by
    intro cp
    cases v <;> simp_all [doParseEmpty, RVal.isStructKind]
  simp [pathAppend, hempty]

theorem get_missing_required (env : Env) (f : StructField) (p : String)
    (hreq : isRequired f) (hl : os.LookupEnv env (envKey f p) = none) :
    get env f p = .error (.missingRequired (envKey f p)) := by
  obtain ⟨t, ht, hb⟩ := hreq
  simp [get, ht, hb, envKey] at hl ⊢
  simp [hl]

theorem get_absent_default (env : Env) (f : StructField) (p : String)
    (hreq : notRequired f) (hl : os.LookupEnv env (envKey f p) = none) :
    get env f p = .ok
      (if strings.ToLower (tagGet f.tags "envExpand") = "true" then
        os.ExpandEnv env (tagGet f.tags "envDefault")
      else tagGet f.tags "envDefault") := by
  simp [envKey] at hl
  rcases hreq with ht | ⟨t, ht, hb⟩ <;> simp [get, ht, hl]
  simp [hb]

theorem get_found (env : Env) (f : StructField) (p : String) (raw : String)
    (hreq : reqWF f) (hl : os.LookupEnv env (envKey f p) = some raw) :
    get env f p = .ok
      (if strings.ToLower (tagGet f.tags "envExpand") = "true" then
        os.ExpandEnv env raw
      else raw) := by
  simp [envKey] at hl
  rcases hreq with ht | ⟨t, b, ht, hb⟩ <;> simp [get, ht, hl]
  simp [hb]

end GoEnv

namespace GoEnv

/-- C3: `ParseWithPrefix` (and `ParseWithPrefixFuncs`) with a non-empty
prefix that does not end in the underscore separator fails immediately —
for every environment, with the destination unmodified and no callback
events — and with a valid prefix every resolved key is the prefix
concatenated with the field's `env` tag: a required field's missing-key
error names `p ++ tag`, and `ParseWithPrefix(dst, "APP_")` with environment
`APP_PORT=8080` and tag `env:"PORT"` sets the field to 8080. -/
theorem C3_prefix_validation_and_round_trip :
    (∀ (env : Env) (v : RVal) (p : String) (fm : CustomParsers),
        p ≠ "" → strings.HasSuffix p "_" = false →
        ParseWithPrefix env v p = .ok (v, [], some (.badPfx p)) ∧
        ParseWithPrefixFuncs env v p fm = .ok (v, [], some (.badPfx p))) ∧
    (∀ (env : Env) (f : StructField) (p : String),
        isRequired f → os.LookupEnv env (p ++ tagGet f.tags "env") = none →
        get env f p = .error (.missingRequired (p ++ tagGet f.tags "env"))) ∧
    ParseWithPrefix [("APP_PORT", "8080")] cfgVal "APP_" =
      .ok (.ptr cfgTy (some (.strct "Config" [portField] [.int 8080])),
        [("Port", "8080")], none) := by
  refine ⟨fun env v p fm h1 h2 => ⟨?_, ?_⟩, fun env f p hr hl => ?_, ?_⟩
  · simp [ParseWithPrefix, h1, h2]
  · rw [ParseWithPrefixFuncs, if_pos ⟨h1, by simp [h2]⟩]
  · exact get_missing_required env f p hr hl
  · simp [ParseWithPrefix, ParseWithPrefixFuncs, parseDest, doParse, doParseGo, doParseEmpty,
      cfgVal, cfgTy, portField,
      get, set, store, strings.HasSuffix, List.isSuffixOf, List.isPrefixOf, strings.ToLower,
      os.LookupEnv, tagGet, tagLookup, lookupParser, strconv.ParseInt, strconv.digitsVal,
      strconv.digitsVal.go, strconv.digitVal, RVal.isLivePtr, StructField.exported,
      StructField.fname, StructField.tags, StructField.ty, finishErr, os.ExpandEnv,
      os.expandGo, os.Getenv]

/-- Witness for C3: the prefix `"APP"` (no trailing underscore) is rejected
with the destination untouched, for a concrete environment. -/
theorem C3_witness :
    ParseWithPrefix [("APP_PORT", "8080")] (RVal.named "T") "APP" =
      .ok (.named "T", [], some (.badPfx "APP")) :=
  (C3_prefix_validation_and_round_trip.1 [("APP_PORT", "8080")] (.named "T") "APP" []
    (by decide) (by decide)).1

/-- C4: a field marked required whose key is absent fails with a
missing-required error whose message contains the resolved key, and whose
wrapping (the walker's field error) has a message containing the field's
path; an absent key on a non-required field substitutes the declared default
(empty if none, expanded if requested); the found-or-has-default path never
yields a resolution error; and a non-empty resolved value that converts
successfully is assigned to the field (with the callback event recorded)
while the walk continues. -/
theorem C4_required_missing_and_default :
    (∀ (env : Env) (f : StructField) (p : String),
        isRequired f → os.LookupEnv env (envKey f p) = none →
        get env f p = .error (.missingRequired (envKey f p))) ∧
    (∀ k : String, ∃ pre post,
        (GoErr.missingRequired k).message = pre ++ (k ++ post)) ∧
    (∀ (path sn : String) (e : GoErr), ∃ pre post,
        (GoErr.fieldErr path sn e).message = pre ++ (path ++ post)) ∧
    (∀ (env : Env) (f : StructField) (p : String),
        notRequired f → os.LookupEnv env (envKey f p) = none →
        get env f p = .ok
          (if strings.ToLower (tagGet f.tags "envExpand") = "true" then
            os.ExpandEnv env (tagGet f.tags "envDefault")
          else tagGet f.tags "envDefault")) ∧
    (∀ (env : Env) (f : StructField) (p : String),
        reqWF f → ((∃ raw, os.LookupEnv env (envKey f p) = some raw) ∨ notRequired f) →
        ∃ s, get env f p = .ok s) ∧
    (∀ (env : Env) (fm : CustomParsers) (f : StructField) (fs : List StructField)
        (v : RVal) (vs : List RVal) (sname fp p : String) (done : List RVal)
        (evs : Events) (errs : List GoErr) (value : String) (v' : RVal),
        ¬(v.isLivePtr = true ∧ f.exported = true) →
        get env f p = .ok value → value ≠ "" → set v f value fm = .ok v' →
        doParseGo env fm (f :: fs) (v :: vs) sname fp p done evs errs =
          doParseGo env fm fs vs sname fp p (done ++ [v']) (evs ++ [(f.fname, value)]) errs) := by
  refine ⟨get_missing_required, fun k => ⟨"env var ", " was missing and is required", ?_⟩,
    fun path sn e => ⟨"field '", "' in " ++ sn ++ ": " ++ e.message, ?_⟩,
    get_absent_default, fun env f p hwf hor => ?_,
    fun env fm f fs v vs sname fp p done evs errs value v' hp hg hne hs =>
      doParseGo_set_ok env fm f fs v vs sname fp p done evs errs hp value hg hne v' hs⟩
  · simp [GoErr.message, String.append_assoc]
  · simp [GoErr.message, String.append_assoc]
  · rcases hor with ⟨raw, hraw⟩ | hnr
    · exact ⟨_, get_found env f p raw hwf hraw⟩
    · cases hlook : os.LookupEnv env (envKey f p) with
      | none => exact ⟨_, get_absent_default env f p hnr hlook⟩
      | some raw => exact ⟨_, get_found env f p raw hwf hlook⟩

/-- Witness for C4: a concrete required field with key `K` unset fails with
the missing-required error for `K`. -/
theorem C4_witness :
    get [] (StructField.mk "F" true [("env", "K"), ("required", "true")] .string) "" =
      .error (.missingRequired "K") :=
  C4_required_missing_and_default.1 []
    (.mk "F" true [("env", "K"), ("required", "true")] .string) ""
    ⟨"true", rfl, rfl⟩ rfl

/-- C6: for a field whose expansion flag is set, the resolved string —
whether from the environment or from the default — undergoes `${NAME}`-style
substitution; in particular a field with default `${HOST}:${PORT}` and
environment `HOST=localhost`, `PORT=3000` resolves to `localhost:3000`. -/
theorem C6_expansion :
    (∀ (env : Env) (f : StructField) (p : String) (raw : String),
        strings.ToLower (tagGet f.tags "envExpand") = "true" →
        ((reqWF f ∧ os.LookupEnv env (envKey f p) = some raw) ∨
          (notRequired f ∧ os.LookupEnv env (envKey f p) = none ∧
            raw = tagGet f.tags "envDefault")) →
        get env f p = .ok (os.ExpandEnv env raw)) ∧
    get [("HOST", "localhost"), ("PORT", "3000")] expField "" = .ok "localhost:3000" := by
  constructor
  · rintro env f p raw hexp (⟨hwf, hraw⟩ | ⟨hnr, hnone, hdef⟩)
    · rw [get_found env f p raw hwf hraw, if_pos hexp]
    · rw [get_absent_default env f p hnr hnone, if_pos hexp, hdef]
  · simp [get, expField, tagGet, tagLookup, os.LookupEnv, strings.ToLower, os.ExpandEnv,
      os.expandGo, os.getShellName, os.braceScan, os.isShellSpecialVar, os.isAlphaNum,
      os.Getenv, StructField.tags]

/-- Witness for C6: a field with `envExpand:"true"` whose variable is set to
`"${A}"` in an environment where `A=7` resolves to `"7"`. -/
theorem C6_witness :
    get [("E", "${A}"), ("A", "7")]
      (StructField.mk "F" true [("env", "E"), ("envExpand", "true")] .string) "" =
      .ok "7" := by
  have h := C6_expansion.1 [("E", "${A}"), ("A", "7")]
    (.mk "F" true [("env", "E"), ("envExpand", "true")] .string) "" "${A}"
    (by simp [tagGet, tagLookup, strings.ToLower, StructField.tags])
    (Or.inl ⟨Or.inl rfl, rfl⟩)
  rw [h]
  simp [os.ExpandEnv, os.expandGo, os.getShellName, os.braceScan, os.isShellSpecialVar,
    os.Getenv, os.LookupEnv]

/-- C10: a variable that is present with an empty value satisfies the
required check and resolves to the empty string; and for any non-pointer,
non-struct field whose resolved value is empty, the walk leaves the field's
prior value unchanged, performs no conversion, records no callback event and
reports no error for it, continuing with the next field. -/
theorem C10_empty_value_frame :
    (∀ (env : Env) (f : StructField) (p : String),
        reqWF f → os.LookupEnv env (envKey f p) = some "" →
        get env f p = .ok "") ∧
    (∀ (env : Env) (fm : CustomParsers) (f : StructField) (fs : List StructField)
        (v : RVal) (vs : List RVal) (sname fp p : String) (done : List RVal)
        (evs : Events) (errs : List GoErr),
        v.isPtrKind = false → v.isStructKind = false →
        get env f p = .ok "" →
        doParseGo env fm (f :: fs) (v :: vs) sname fp p done evs errs =
          doParseGo env fm fs vs sname fp p (done ++ [v]) evs errs) := by
  constructor
  · intro env f p hwf hl
    rw [get_found env f p "" hwf hl]
    have hx : os.ExpandEnv env "" = "" := by
      simp [os.ExpandEnv, os.expandGo]
    split <;> simp [hx]
  · intro env fm f fs v vs sname fp p done evs errs hnp hns hg
    have hp : ¬(v.isLivePtr = true ∧ f.exported = true) := by
      cases v <;> simp_all [RVal.isLivePtr, RVal.isPtrKind]
    exact doParseGo_skip env fm f fs v vs sname fp p done evs errs hp hg hns

/-- Witness for C10: a required field whose variable is present but empty
resolves without error to the empty string. -/
theorem C10_witness :
    get [("K", "")] (StructField.mk "F" true [("env", "K"), ("required", "true")] .int) "" =
      .ok "" :=
  C10_empty_value_frame.1 [("K", "")]
    (.mk "F" true [("env", "K"), ("required", "true")] .int) ""
    (Or.inr ⟨"true", true, rfl, rfl⟩) rfl

end GoEnv

namespace GoEnv

/-- C8: numeric conversions parse in base 10 at the declared width — `int`
at 32 bits, `uint` at 32, `int64` at 64 except that a field whose declared
type is `time.Duration` is parsed with duration syntax, `uint64` at 64,
`float32` at 32-bit and `float64` at 64-bit IEEE width — and each conversion
fails exactly when the underlying string parse fails (the conversion result
is the mapped parser result in every case). -/
theorem C8_numeric_widths :
    (∀ (fn : String) (ex : Bool) (tags : Tags) (n : Int) (value : String)
        (fm : CustomParsers), lookupParser fm .int = none →
        set (.int n) (.mk fn ex tags .int) value fm =
          (match strconv.ParseInt value 10 32 with
            | .error e => .err (.numErr "ParseInt" value e)
            | .ok m => store ex (.int m))) ∧
    (∀ (fn : String) (ex : Bool) (tags : Tags) (n : Nat) (value : String)
        (fm : CustomParsers), lookupParser fm .uint = none →
        set (.uint n) (.mk fn ex tags .uint) value fm =
          (match strconv.ParseUint value 10 32 with
            | .error e => .err (.numErr "ParseUint" value e)
            | .ok m => store ex (.uint m))) ∧
    (∀ (fn : String) (ex : Bool) (tags : Tags) (n : Int) (value : String)
        (fm : CustomParsers), lookupParser fm .int64 = none →
        set (.int64 n) (.mk fn ex tags .int64) value fm =
          (match strconv.ParseInt value 10 64 with
            | .error e => .err (.numErr "ParseInt" value e)
            | .ok m => store ex (.int64 m))) ∧
    (∀ (fn : String) (ex : Bool) (tags : Tags) (ns : Int) (value : String)
        (fm : CustomParsers), lookupParser fm .duration = none →
        set (.duration ns) (.mk fn ex tags .duration) value fm =
          (match time.ParseDuration value with
            | .error m => .err (.durationErr m)
            | .ok d => store ex (.duration d))) ∧
    (∀ (fn : String) (ex : Bool) (tags : Tags) (n : Nat) (value : String)
        (fm : CustomParsers), lookupParser fm .uint64 = none →
        set (.uint64 n) (.mk fn ex tags .uint64) value fm =
          (match strconv.ParseUint value 10 64 with
            | .error e => .err (.numErr "ParseUint" value e)
            | .ok m => store ex (.uint64 m))) ∧
    (∀ (fn : String) (ex : Bool) (tags : Tags) (x : FloatRep) (value : String)
        (fm : CustomParsers), lookupParser fm .float32 = none →
        set (.float32 x) (.mk fn ex tags .float32) value fm =
          (match strconv.ParseFloat value 32 with
            | .error e => .err (.numErr "ParseFloat" value e)
            | .ok y => store ex (.float32 y))) ∧
    (∀ (fn : String) (ex : Bool) (tags : Tags) (x : FloatRep) (value : String)
        (fm : CustomParsers), lookupParser fm .float64 = none →
        set (.float64 x) (.mk fn ex tags .float64) value fm =
          (match strconv.ParseFloat value 64 with
            | .error e => .err (.numErr "ParseFloat" value e)
            | .ok y => store ex (.float64 y))) := by
  refine ⟨?_, ?_, ?_, ?_, ?_, ?_, ?_⟩ <;>
    (intro fn ex tags n value fm hlp; simp [set, StructField.ty, StructField.exported, hlp, Ty.typeString])

/-- Witness for C8: an `int` field converts `"8080"` through the 32-bit
parse and an out-of-32-bit-range value fails, while an `int64` field accepts
it. -/
theorem C8_witness :
    set (.int 0) (.mk "F" true [] .int) "8080" [] = .ok (.int 8080) ∧
    (set (.int 0) (.mk "F" true [] .int) "2147483648" []).isErr = true ∧
    set (.int64 0) (.mk "F" true [] .int64) "2147483648" [] = .ok (.int64 2147483648) := by
  refine ⟨?_, ?_, ?_⟩
  · rw [C8_numeric_widths.1 "F" true [] 0 "8080" [] rfl]
    rfl
  · rw [C8_numeric_widths.1 "F" true [] 0 "2147483648" [] rfl]
    rfl
  · rw [C8_numeric_widths.2.2.1 "F" true [] 0 "2147483648" [] rfl]
    rfl

end GoEnv

namespace GoEnv

/-- The elementwise slice helper `parseInts` fails exactly when some element
fails its scalar parse. -/
theorem parseInts_isOk_iff (l : List String) :
    (parseInts l).isOk = false ↔ ∃ u ∈ l, (strconv.ParseInt u 10 32).isOk = false := by
  induction l with
  | nil => simp [parseInts, Except.isOk, Except.toBool]
  | cons v rest ih =>
    cases hv : strconv.ParseInt v 10 32 with
    | error e => simp [parseInts, hv, Except.isOk, Except.toBool]
    | ok n =>
      cases hr : parseInts rest with
      | error e =>
        simp [parseInts, hv, hr, Except.isOk, Except.toBool] at ih ⊢
        exact ih
      | ok ns =>
        simp [parseInts, hv, hr, Except.isOk, Except.toBool] at ih ⊢
        intro x hx
        exact ih x hx

/-- The elementwise slice helper `parseInt64s` fails exactly when some element
fails its scalar parse. -/
theorem parseInt64s_isOk_iff (l : List String) :
    (parseInt64s l).isOk = false ↔ ∃ u ∈ l, (strconv.ParseInt u 10 64).isOk = false := by
  induction l with
  | nil => simp [parseInt64s, Except.isOk, Except.toBool]
  | cons v rest ih =>
    cases hv : strconv.ParseInt v 10 64 with
    | error e => simp [parseInt64s, hv, Except.isOk, Except.toBool]
    | ok n =>
      cases hr : parseInt64s rest with
      | error e =>
        simp [parseInt64s, hv, hr, Except.isOk, Except.toBool] at ih ⊢
        exact ih
      | ok ns =>
        simp [parseInt64s, hv, hr, Except.isOk, Except.toBool] at ih ⊢
        intro x hx
        exact ih x hx

/-- The elementwise slice helper `parseUint64s` fails exactly when some element
fails its scalar parse. -/
theorem parseUint64s_isOk_iff (l : List String) :
    (parseUint64s l).isOk = false ↔ ∃ u ∈ l, (strconv.ParseUint u 10 64).isOk = false := by
  induction l with
  | nil => simp [parseUint64s, Except.isOk, Except.toBool]
  | cons v rest ih =>
    cases hv : strconv.ParseUint v 10 64 with
    | error e => simp [parseUint64s, hv, Except.isOk, Except.toBool]
    | ok n =>
      cases hr : parseUint64s rest with
      | error e =>
        simp [parseUint64s, hv, hr, Except.isOk, Except.toBool] at ih ⊢
        exact ih
      | ok ns =>
        simp [parseUint64s, hv, hr, Except.isOk, Except.toBool] at ih ⊢
        intro x hx
        exact ih x hx

/-- The elementwise slice helper `parseFloat32s` fails exactly when some element
fails its scalar parse. -/
theorem parseFloat32s_isOk_iff (l : List String) :
    (parseFloat32s l).isOk = false ↔ ∃ u ∈ l, (strconv.ParseFloat u 32).isOk = false := by
  induction l with
  | nil => simp [parseFloat32s, Except.isOk, Except.toBool]
  | cons v rest ih =>
    cases hv : strconv.ParseFloat v 32 with
    | error e => simp [parseFloat32s, hv, Except.isOk, Except.toBool]
    | ok n =>
      cases hr : parseFloat32s rest with
      | error e =>
        simp [parseFloat32s, hv, hr, Except.isOk, Except.toBool] at ih ⊢
        exact ih
      | ok ns =>
        simp [parseFloat32s, hv, hr, Except.isOk, Except.toBool] at ih ⊢
        intro x hx
        exact ih x hx

/-- The elementwise slice helper `parseFloat64s` fails exactly when some element
fails its scalar parse. -/
theorem parseFloat64s_isOk_iff (l : List String) :
    (parseFloat64s l).isOk = false ↔ ∃ u ∈ l, (strconv.ParseFloat u 64).isOk = false := by
  induction l with
  | nil => simp [parseFloat64s, Except.isOk, Except.toBool]
  | cons v rest ih =>
    cases hv : strconv.ParseFloat v 64 with
    | error e => simp [parseFloat64s, hv, Except.isOk, Except.toBool]
    | ok n =>
      cases hr : parseFloat64s rest with
      | error e =>
        simp [parseFloat64s, hv, hr, Except.isOk, Except.toBool] at ih ⊢
        exact ih
      | ok ns =>
        simp [parseFloat64s, hv, hr, Except.isOk, Except.toBool] at ih ⊢
        intro x hx
        exact ih x hx

/-- The elementwise slice helper `parseBools` fails exactly when some element
fails its scalar parse. -/
theorem parseBools_isOk_iff (l : List String) :
    (parseBools l).isOk = false ↔ ∃ u ∈ l, (strconv.ParseBool u).isOk = false := by
  induction l with
  | nil => simp [parseBools, Except.isOk, Except.toBool]
  | cons v rest ih =>
    cases hv : strconv.ParseBool v with
    | error e => simp [parseBools, hv, Except.isOk, Except.toBool]
    | ok n =>
      cases hr : parseBools rest with
      | error e =>
        simp [parseBools, hv, hr, Except.isOk, Except.toBool] at ih ⊢
        exact ih
      | ok ns =>
        simp [parseBools, hv, hr, Except.isOk, Except.toBool] at ih ⊢
        intro x hx
        exact ih x hx

/-- The elementwise slice helper `parseDurations` fails exactly when some element
fails its scalar parse. -/
theorem parseDurations_isOk_iff (l : List String) :
    (parseDurations l).isOk = false ↔ ∃ u ∈ l, (time.ParseDuration u).isOk = false := by
  induction l with
  | nil => simp [parseDurations, Except.isOk, Except.toBool]
  | cons v rest ih =>
    cases hv : time.ParseDuration v with
    | error e => simp [parseDurations, hv, Except.isOk, Except.toBool]
    | ok n =>
      cases hr : parseDurations rest with
      | error e =>
        simp [parseDurations, hv, hr, Except.isOk, Except.toBool] at ih ⊢
        exact ih
      | ok ns =>
        simp [parseDurations, hv, hr, Except.isOk, Except.toBool] at ih ⊢
        intro x hx
        exact ih x hx

/-- The elementwise slice helper `parseUrls` fails exactly when some element
fails its scalar parse. -/
theorem parseUrls_isOk_iff (l : List String) :
    (parseUrls l).isOk = false ↔ ∃ u ∈ l, (url.Parse u).isOk = false := by
  induction l with
  | nil => simp [parseUrls, Except.isOk, Except.toBool]
  | cons v rest ih =>
    cases hv : url.Parse v with
    | error e => simp [parseUrls, hv, Except.isOk, Except.toBool]
    | ok n =>
      cases hr : parseUrls rest with
      | error e =>
        simp [parseUrls, hv, hr, Except.isOk, Except.toBool] at ih ⊢
        exact ih
      | ok ns =>
        simp [parseUrls, hv, hr, Except.isOk, Except.toBool] at ih ⊢
        intro x hx
        exact ih x hx

end GoEnv

namespace GoEnv

/-- C7: slice conversion splits the resolved string on the field separator
(comma when no `envSeparator` tag is given); for the built-in element types
the pieces are converted elementwise and the whole field fails exactly when
some element fails; an unrecognised element type must - directly or behind a
pointer - implement text-deserialisation, else the field fails with the
unsupported-slice-element-type error; and with separator `":"` the value
`"a:b:c"` parses to the string slice `["a", "b", "c"]`. -/
theorem C7_slice_conversion :
    (∀ (xs : List RVal) (ex : Bool) (value sep : String),
        handleSlice (.slice .string xs) ex value sep =
          store ex (.slice .string
            ((strings.Split value (if sep = "" then "," else sep)).map RVal.string))) ∧
    (∀ (xs : List RVal) (value sep : String),
        (handleSlice (.slice .int xs) true value sep).isErr = true ↔
          ∃ piece ∈ strings.Split value (if sep = "" then "," else sep),
            (strconv.ParseInt piece 10 32).isOk = false) ∧
    (∀ (xs : List RVal) (value sep : String),
        (handleSlice (.slice .int64 xs) true value sep).isErr = true ↔
          ∃ piece ∈ strings.Split value (if sep = "" then "," else sep),
            (strconv.ParseInt piece 10 64).isOk = false) ∧
    (∀ (xs : List RVal) (value sep : String),
        (handleSlice (.slice .uint64 xs) true value sep).isErr = true ↔
          ∃ piece ∈ strings.Split value (if sep = "" then "," else sep),
            (strconv.ParseUint piece 10 64).isOk = false) ∧
    (∀ (xs : List RVal) (value sep : String),
        (handleSlice (.slice .float32 xs) true value sep).isErr = true ↔
          ∃ piece ∈ strings.Split value (if sep = "" then "," else sep),
            (strconv.ParseFloat piece 32).isOk = false) ∧
    (∀ (xs : List RVal) (value sep : String),
        (handleSlice (.slice .float64 xs) true value sep).isErr = true ↔
          ∃ piece ∈ strings.Split value (if sep = "" then "," else sep),
            (strconv.ParseFloat piece 64).isOk = false) ∧
    (∀ (xs : List RVal) (value sep : String),
        (handleSlice (.slice .bool xs) true value sep).isErr = true ↔
          ∃ piece ∈ strings.Split value (if sep = "" then "," else sep),
            (strconv.ParseBool piece).isOk = false) ∧
    (∀ (xs : List RVal) (value sep : String),
        (handleSlice (.slice .duration xs) true value sep).isErr = true ↔
          ∃ piece ∈ strings.Split value (if sep = "" then "," else sep),
            (time.ParseDuration piece).isOk = false) ∧
    (∀ (xs : List RVal) (value sep : String),
        (handleSlice (.slice .url xs) true value sep).isErr = true ↔
          ∃ piece ∈ strings.Split value (if sep = "" then "," else sep),
            (url.Parse piece).isOk = false) ∧
    (∀ (xs : List RVal) (ex : Bool) (value sep nm : String),
        handleSlice (.slice (.named nm) xs) ex value sep = .err .unsupportedSliceType ∧
        handleSlice (.slice (.ptr (.named nm)) xs) ex value sep =
          .err .unsupportedSliceType) ∧
    (∀ (xs : List RVal) (value sep nm : String),
        handleSlice (.slice (.textTy nm) xs) true value sep =
          .ok (.slice (.textTy nm)
            ((strings.Split value (if sep = "" then "," else sep)).map
              (fun u => .text nm (some u))))) ∧
    handleSlice (.slice .string []) true "a:b:c" ":" =
      .ok (.slice .string [.string "a", .string "b", .string "c"]) := by
  refine ⟨?_, ?_, ?_, ?_, ?_, ?_, ?_, ?_, ?_, ?_, ?_, ?_⟩
  · intro xs ex value sep
    simp [handleSlice]
  · intro xs value sep
    have hiff := parseInts_isOk_iff (strings.Split value (if sep = "" then "," else sep))
    cases hpi : parseInts (strings.Split value (if sep = "" then "," else sep)) with
    | error e =>
      rw [hpi] at hiff
      simp [Except.isOk, Except.toBool] at hiff
      simp [handleSlice, hpi, CRes.isErr]
      exact hiff
    | ok ns =>
      rw [hpi] at hiff
      simp [Except.isOk, Except.toBool] at hiff
      simp [handleSlice, hpi, CRes.isErr, store]
      exact hiff
  · intro xs value sep
    have hiff := parseInt64s_isOk_iff (strings.Split value (if sep = "" then "," else sep))
    cases hpi : parseInt64s (strings.Split value (if sep = "" then "," else sep)) with
    | error e =>
      rw [hpi] at hiff
      simp [Except.isOk, Except.toBool] at hiff
      simp [handleSlice, hpi, CRes.isErr]
      exact hiff
    | ok ns =>
      rw [hpi] at hiff
      simp [Except.isOk, Except.toBool] at hiff
      simp [handleSlice, hpi, CRes.isErr, store]
      exact hiff
  · intro xs value sep
    have hiff := parseUint64s_isOk_iff (strings.Split value (if sep = "" then "," else sep))
    cases hpi : parseUint64s (strings.Split value (if sep = "" then "," else sep)) with
    | error e =>
      rw [hpi] at hiff
      simp [Except.isOk, Except.toBool] at hiff
      simp [handleSlice, hpi, CRes.isErr]
      exact hiff
    | ok ns =>
      rw [hpi] at hiff
      simp [Except.isOk, Except.toBool] at hiff
      simp [handleSlice, hpi, CRes.isErr, store]
      exact hiff
  · intro xs value sep
    have hiff := parseFloat32s_isOk_iff (strings.Split value (if sep = "" then "," else sep))
    cases hpi : parseFloat32s (strings.Split value (if sep = "" then "," else sep)) with
    | error e =>
      rw [hpi] at hiff
      simp [Except.isOk, Except.toBool] at hiff
      simp [handleSlice, hpi, CRes.isErr]
      exact hiff
    | ok ns =>
      rw [hpi] at hiff
      simp [Except.isOk, Except.toBool] at hiff
      simp [handleSlice, hpi, CRes.isErr, store]
      exact hiff
  · intro xs value sep
    have hiff := parseFloat64s_isOk_iff (strings.Split value (if sep = "" then "," else sep))
    cases hpi : parseFloat64s (strings.Split value (if sep = "" then "," else sep)) with
    | error e =>
      rw [hpi] at hiff
      simp [Except.isOk, Except.toBool] at hiff
      simp [handleSlice, hpi, CRes.isErr]
      exact hiff
    | ok ns =>
      rw [hpi] at hiff
      simp [Except.isOk, Except.toBool] at hiff
      simp [handleSlice, hpi, CRes.isErr, store]
      exact hiff
  · intro xs value sep
    have hiff := parseBools_isOk_iff (strings.Split value (if sep = "" then "," else sep))
    cases hpi : parseBools (strings.Split value (if sep = "" then "," else sep)) with
    | error e =>
      rw [hpi] at hiff
      simp [Except.isOk, Except.toBool] at hiff
      simp [handleSlice, hpi, CRes.isErr]
      exact hiff
    | ok ns =>
      rw [hpi] at hiff
      simp [Except.isOk, Except.toBool] at hiff
      simp [handleSlice, hpi, CRes.isErr, store]
      exact hiff
  · intro xs value sep
    have hiff := parseDurations_isOk_iff (strings.Split value (if sep = "" then "," else sep))
    cases hpi : parseDurations (strings.Split value (if sep = "" then "," else sep)) with
    | error e =>
      rw [hpi] at hiff
      simp [Except.isOk, Except.toBool] at hiff
      simp [handleSlice, hpi, CRes.isErr]
      exact hiff
    | ok ns =>
      rw [hpi] at hiff
      simp [Except.isOk, Except.toBool] at hiff
      simp [handleSlice, hpi, CRes.isErr, store]
      exact hiff
  · intro xs value sep
    have hiff := parseUrls_isOk_iff (strings.Split value (if sep = "" then "," else sep))
    cases hpi : parseUrls (strings.Split value (if sep = "" then "," else sep)) with
    | error e =>
      rw [hpi] at hiff
      simp [Except.isOk, Except.toBool] at hiff
      simp [handleSlice, hpi, CRes.isErr]
      exact hiff
    | ok ns =>
      rw [hpi] at hiff
      simp [Except.isOk, Except.toBool] at hiff
      simp [handleSlice, hpi, CRes.isErr, store]
      exact hiff
  · intro xs ex value sep nm
    constructor <;> simp [handleSlice, implsTextUnmarshaler]
  · intro xs value sep nm
    simp [handleSlice, implsTextUnmarshaler, parseTextUnmarshalers, store]
  · simp [handleSlice, strings.Split, strings.splitGo, store, List.isPrefixOf]

/-- Witness for C7: an `[]int` field fails on `"1,x"` because the piece
`"x"` fails the element parse, and succeeds on `"1,2"`. -/
theorem C7_witness :
    ((handleSlice (.slice .int []) true "1,x" "").isErr = true) ∧
    ((handleSlice (.slice .int []) true "1,2" "").isErr = false) := by
  constructor
  · exact (C7_slice_conversion.2.1 [] "1,x" "").mpr
      ⟨"x", by simp [strings.Split, strings.splitGo, List.isPrefixOf], by rfl⟩
  · have h := C7_slice_conversion.2.1 [] "1,2" ""
    by_contra hc
    simp only [Bool.not_eq_false] at hc
    obtain ⟨piece, hmem, hbad⟩ := h.mp hc
    simp [strings.Split, strings.splitGo, List.isPrefixOf] at hmem
    rcases hmem with h1 | h2 <;> subst_vars <;> simp [Except.isOk, Except.toBool] at hbad <;>
      revert hbad <;> decide

end GoEnv

namespace GoEnv

/-- Counterexample for C2: a nil pointer field is not "skipped without
producing an error regardless of its tags" — with tags `env:"X"
required:"true"` and `X` unset, `Parse` reports a missing-required error for
the nil pointer field. -/
theorem C2_counterexample :
    Parse [] nilPtrReqVal =
      .ok (nilPtrReqVal, [], some (.multi [.fieldErr "P" "C2S" (.missingRequired "X")])) := by
  simp [Parse, ParseWithPrefixFuncs, parseDest, doParse, doParseGo, doParseEmpty,
    nilPtrReqVal, nilPtrReqField, get, strings.HasSuffix, os.LookupEnv, tagGet, tagLookup,
    strconv.ParseBool, RVal.isLivePtr, StructField.exported, StructField.fname,
    StructField.tags, StructField.ty, finishErr, pathAppend]

/-- C2 (amended): a non-nil pointer field is followed transparently
(re-parsed as its own destination, continuing with the updated pointer on
success) only when it is settable; a nil pointer field is not followed and,
like any scalar field, is skipped without error precisely when its resolved
value is empty (in particular when it carries no `env`/`required` tags); an
unexported field is never followed — even a non-nil pointer — and is
likewise left untouched without error when its resolved value is empty. -/
theorem C2_pointer_and_unexported_amended :
    (∀ (env : Env) (fm : CustomParsers) (f : StructField) (fs : List StructField)
        (v : RVal) (vs : List RVal) (sname fp p : String) (done : List RVal)
        (evs : Events) (errs : List GoErr) (v' : RVal) (evs2 : Events),
        v.isLivePtr = true → f.exported = true →
        ParseWithPrefixFuncs env v p fm = .ok (v', evs2, none) →
        doParseGo env fm (f :: fs) (v :: vs) sname fp p done evs errs =
          doParseGo env fm fs vs sname fp p (done ++ [v']) (evs ++ evs2) errs) ∧
    (∀ (env : Env) (fm : CustomParsers) (f : StructField) (fs : List StructField)
        (t : Ty) (vs : List RVal) (sname fp p : String) (done : List RVal)
        (evs : Events) (errs : List GoErr),
        get env f p = .ok "" →
        doParseGo env fm (f :: fs) (.ptr t none :: vs) sname fp p done evs errs =
          doParseGo env fm fs vs sname fp p (done ++ [.ptr t none]) evs errs) ∧
    (∀ (env : Env) (fm : CustomParsers) (f : StructField) (fs : List StructField)
        (v : RVal) (vs : List RVal) (sname fp p : String) (done : List RVal)
        (evs : Events) (errs : List GoErr),
        f.exported = false → v.isStructKind = false → get env f p = .ok "" →
        doParseGo env fm (f :: fs) (v :: vs) sname fp p done evs errs =
          doParseGo env fm fs vs sname fp p (done ++ [v]) evs errs) := by
  refine ⟨?_, ?_, ?_⟩
  · intro env fm f fs v vs sname fp p done evs errs v' evs2 hl he hw
    exact doParseGo_ptr_ok env fm f fs v vs sname fp p done evs errs hl he v' evs2 hw
  · intro env fm f fs t vs sname fp p done evs errs hg
    exact doParseGo_skip env fm f fs (.ptr t none) vs sname fp p done evs errs
      (by simp [RVal.isLivePtr]) hg (by simp [RVal.isStructKind])
  · intro env fm f fs v vs sname fp p done evs errs hex hns hg
    exact doParseGo_skip env fm f fs v vs sname fp p done evs errs
      (by simp [hex]) hg hns

/-- Witness for C2 (amended): a tagless nil pointer field is skipped without
error and the walk of a one-field struct completes cleanly. -/
theorem C2_witness :
    doParseGo [] [] [StructField.mk "P" true [] (.ptr (.textTy "TM"))]
      [.ptr (.textTy "TM") none] "S" "" "" [] [] [] =
      .ok ([.ptr (.textTy "TM") none], [], none) := by
  rw [C2_pointer_and_unexported_amended.2.1 [] [] (.mk "P" true [] (.ptr (.textTy "TM")))
    [] (.textTy "TM") [] "S" "" "" [] [] []
    (by simp [get, tagGet, tagLookup, StructField.tags, os.LookupEnv, strings.ToLower])]
  rw [doParseGo_nil]
  rfl

end GoEnv

namespace GoEnv

/-- Counterexample for C1: with a non-nil settable pointer field whose
recursive parse fails, the walk aborts and returns that error alone — the
sibling required field `Y` is never resolved and its missing-required error
is absent from the result, refuting both "errors are collected across the
entire structure walk" and "the only conditions that abort the walk are a
non-struct destination or an invalid prefix". -/
theorem C1_counterexample :
    Parse [] abortVal =
      .ok (abortVal, [], some (.multi [.fieldErr "X" "Inner" (.missingRequired "X")])) := by
  simp [Parse, ParseWithPrefixFuncs, parseDest, doParse, doParseGo, doParseEmpty, abortVal,
    abortFields, innerReqTy, innerReqFields, get, strings.HasSuffix, os.LookupEnv, tagGet,
    tagLookup, strconv.ParseBool, RVal.isLivePtr, StructField.exported, StructField.fname,
    StructField.tags, StructField.ty, finishErr, pathAppend]

/-- C1 (amended): field-level errors (resolution and conversion failures)
are local — the walk records the error, wrapped with the field's path and
the owning struct's name, and continues with the next field — and on
completion all recorded errors are returned together as the single
`ParseErrors` aggregate (`none` when there are none); but besides an invalid
destination and an invalid prefix, a third condition aborts the walk: an
error while recursively parsing a non-nil settable pointer field is returned
immediately and alone, discarding the errors collected so far.  On the
three-failure example (two required fields unset, one `int` field fed
`"abc"`) the aggregate reports exactly the three field failures in
declaration order. -/
theorem C1_error_collection_amended :
    (∀ (env : Env) (fm : CustomParsers) (f : StructField) (fs : List StructField)
        (v : RVal) (vs : List RVal) (sname fp p : String) (done : List RVal)
        (evs : Events) (errs : List GoErr) (e : GoErr),
        ¬(v.isLivePtr = true ∧ f.exported = true) →
        get env f p = .error e →
        doParseGo env fm (f :: fs) (v :: vs) sname fp p done evs errs =
          doParseGo env fm fs vs sname fp p (done ++ [v]) evs
            (errs ++ [.fieldErr (pathAppend fp f.fname) sname e])) ∧
    (∀ (env : Env) (fm : CustomParsers) (f : StructField) (fs : List StructField)
        (v : RVal) (vs : List RVal) (sname fp p : String) (done : List RVal)
        (evs : Events) (errs : List GoErr) (value : String) (e : GoErr),
        ¬(v.isLivePtr = true ∧ f.exported = true) →
        get env f p = .ok value → value ≠ "" → set v f value fm = .err e →
        doParseGo env fm (f :: fs) (v :: vs) sname fp p done evs errs =
          doParseGo env fm fs vs sname fp p (done ++ [v]) evs
            (errs ++ [.fieldErr (pathAppend fp f.fname) sname e])) ∧
    (∀ (env : Env) (fm : CustomParsers) (vals : List RVal) (sname fp p : String)
        (done : List RVal) (evs : Events) (errs : List GoErr),
        doParseGo env fm [] vals sname fp p done evs errs =
          .ok (done ++ vals, evs, finishErr errs)) ∧
    finishErr [] = none ∧
    (∀ (e : GoErr) (es : List GoErr), finishErr (e :: es) = some (.multi (e :: es))) ∧
    (∀ (env : Env) (fm : CustomParsers) (f : StructField) (fs : List StructField)
        (v : RVal) (vs : List RVal) (sname fp p : String) (done : List RVal)
        (evs : Events) (errs : List GoErr) (v' : RVal) (evs2 : Events) (e : GoErr),
        v.isLivePtr = true → f.exported = true →
        ParseWithPrefixFuncs env v p fm = .ok (v', evs2, some e) →
        doParseGo env fm (f :: fs) (v :: vs) sname fp p done evs errs =
          .ok (done ++ v' :: vs, evs ++ evs2, some e)) ∧
    Parse [("N", "abc")] threeErrVal =
      .ok (threeErrVal, [], some (.multi
        [.fieldErr "A" "Three" (.missingRequired "A"),
         .fieldErr "B" "Three" (.missingRequired "B"),
         .fieldErr "N" "Three" (.numErr "ParseInt" "abc" .invalidSyntax)])) := by
  refine ⟨?_, ?_, ?_, rfl, fun e es => rfl, ?_, ?_⟩
  · intro env fm f fs v vs sname fp p done evs errs e hp hg
    exact doParseGo_get_err env fm f fs v vs sname fp p done evs errs hp e hg
  · intro env fm f fs v vs sname fp p done evs errs value e hp hg hne hs
    exact doParseGo_set_err env fm f fs v vs sname fp p done evs errs hp value hg hne e hs
  · exact doParseGo_nil
  · intro env fm f fs v vs sname fp p done evs errs v' evs2 e hl he hw
    exact doParseGo_ptr_abort env fm f fs v vs sname fp p done evs errs hl he v' evs2 e hw
  · simp [Parse, ParseWithPrefixFuncs, parseDest, doParse, doParseGo, doParseEmpty,
      threeErrVal, threeErrFields, get, set, strings.HasSuffix, os.LookupEnv, tagGet,
      tagLookup, strconv.ParseBool, strconv.ParseInt, strconv.digitsVal, strconv.digitsVal.go,
      strconv.digitVal, RVal.isLivePtr, StructField.exported, StructField.fname,
      StructField.tags, StructField.ty, finishErr, pathAppend, lookupParser, store,
      strings.ToLower]

/-- Witness for C1 (amended): a concrete required-missing field error is
recorded and the walk continues to completion, yielding the one-element
aggregate. -/
theorem C1_witness :
    doParseGo [] [] [StructField.mk "A" true [("env", "A"), ("required", "true")] .string]
      [.string ""] "S" "" "" [] [] [] =
      .ok ([.string ""], [], some (.multi [.fieldErr "A" "S" (.missingRequired "A")])) := by
  rw [C1_error_collection_amended.1 [] []
    (.mk "A" true [("env", "A"), ("required", "true")] .string) [] (.string "") []
    "S" "" "" [] [] [] (.missingRequired "A")
    (by simp [RVal.isLivePtr])
    (by simp [get, tagGet, tagLookup, StructField.tags, os.LookupEnv, strconv.ParseBool])]
  rw [C1_error_collection_amended.2.2.1]
  rfl

end GoEnv

namespace GoEnv

/-- `collectVars` only ever appends: it equals its accumulator followed by
the directly computed entry list `varsSpec`. -/
theorem collectVars_eq_varsSpec (flds : List StructField) (vals : List RVal)
    (fp pfx : String) (vars : List VarInfo) :
    collectVars flds vals fp pfx vars = vars ++ varsSpec flds vals fp pfx := by
  induction flds, vals, fp, pfx, vars using collectVars.induct with
  | case1 => simp [collectVars, varsSpec]
  | case2 => simp [collectVars, varsSpec]
  | case3 f fs v vs fp pfx vars cur envTag hTag varsP ihA ihB ihTail =>
    have hTag2 : tagGet f.tags "env" = "" := hTag
    cases v
    case strct nsname nflds nvals =>
      have hP : (varsP : List VarInfo) = vars ++ varsSpec nflds nvals cur pfx := ihB
      rw [hP] at ihTail
      simp_all [collectVars, varsSpec, pathAppend, List.append_assoc, dite_eq_ite]
    all_goals simp_all [collectVars, varsSpec, pathAppend, List.append_assoc, dite_eq_ite]
  | case4 f fs v vs fp pfx vars cur envTag hTag req dflt info vars1 vars2 ihA ihB ihTail =>
    have hTag2 : ¬tagGet f.tags "env" = "" := hTag
    cases v
    case strct nsname nflds nvals =>
      have hP : (vars2 : List VarInfo) = vars1 ++ varsSpec nflds nvals cur pfx := ihB
      rw [hP] at ihTail
      simp_all [collectVars, varsSpec, pathAppend, List.append_assoc, dite_eq_ite, vars1,
        info, cur, req, dflt, envTag]
    all_goals
      have hP : (vars2 : List VarInfo) = vars1 := rfl
    all_goals
      rw [hP] at ihTail
    all_goals
      simp_all [collectVars, varsSpec, pathAppend, List.append_assoc, dite_eq_ite, vars1,
        info, cur, req, dflt, envTag]

/-- Counterexample for C9: `GetAllVars` is blind to structures behind
pointer fields.  On a destination whose only field is a non-nil pointer to a
struct with the mapped field `S` (`env:"X"`), `GetAllVars` returns no
entries, yet `Parse` with `X=hello` does set that field — so not every
mapped field yields an entry. -/
theorem C9_counterexample :
    GetAllVars ptrOnlyVal "" = .ok [] ∧
    Parse [("X", "hello")] ptrOnlyVal =
      .ok (.ptr (.strct "Out9" ptrOnlyFields) (some (.strct "Out9" ptrOnlyFields
        [.ptr (.strct "In9" innerTaggedFields)
          (some (.strct "In9" innerTaggedFields [.string "hello"]))])),
        [("S", "hello")], none) := by
  constructor
  · simp [GetAllVars, collectVars, ptrOnlyVal, ptrOnlyFields, innerTaggedFields, tagGet,
      tagLookup, StructField.tags]
  · simp [Parse, ParseWithPrefixFuncs, parseDest, doParse, doParseGo, doParseEmpty,
      ptrOnlyVal, ptrOnlyFields, innerTaggedFields, get, set, store, strings.HasSuffix,
      os.LookupEnv, tagGet, tagLookup, lookupParser, RVal.isLivePtr, StructField.exported,
      StructField.fname, StructField.tags, StructField.ty, finishErr, pathAppend,
      strings.ToLower]

/-- C9 (amended): `GetAllVars` is non-mutating introspection that consults
no environment (the model takes no environment argument, as the source reads
no variables): for every `env`-tagged field reachable through directly
nested struct fields — structures behind pointer fields are not traversed —
it returns exactly one entry, in declaration order, carrying the resolved
key `prefix + tag`, the required flag (an unparsable `required` tag counts
as not required), the default with its `HasDefault` flag, and the declared
type name; this is the content of `varsSpec`, and on a structure with one
required field (no default) and one optional field with a default it returns
exactly the two expected entries. -/
theorem C9_get_all_vars_amended :
    (∀ (flds : List StructField) (vals : List RVal) (fp pfx : String)
        (vars : List VarInfo),
        collectVars flds vals fp pfx vars = vars ++ varsSpec flds vals fp pfx) ∧
    GetAllVars twoVarVal "" = .ok
      [{ Name := "REQ", FieldName := "R", FieldPath := "R", Required := true,
         Default := "", TypeStr := "string", HasDefault := false },
       { Name := "OPT", FieldName := "O", FieldPath := "O", Required := false,
         Default := "fallback", TypeStr := "int", HasDefault := true }] := by
  constructor
  · exact collectVars_eq_varsSpec
  · simp [GetAllVars, collectVars, twoVarVal, twoVarFields, tagGet, tagLookup,
      StructField.tags, StructField.fname, StructField.ty, Ty.typeString,
      strconv.ParseBool, pathAppend]

end GoEnv

namespace GoEnv

/-! Infrastructure for the path-uniqueness and declaration-order claim. -/

theorem errPathsList_append (a b : List GoErr) :
    errPathsList (a ++ b) = errPathsList a ++ errPathsList b := by
  induction a with
  | nil => simp [errPathsList]
  | cons e rest ih => simp [errPathsList, ih, List.append_assoc]

theorem errPathsOpt_finishErr (errs : List GoErr) :
    errPathsOpt (finishErr errs) = errPathsList errs := by
  cases errs with
  | nil => simp [finishErr, errPathsOpt, errPathsList]
  | cons e es => simp [finishErr, errPathsOpt, errPaths]

/-- Two dot-free words followed by empty-or-dot-headed tails concatenate
equally only if the words agree. -/
theorem dotfree_prefix_eq : ∀ (a₁ r₁ a₂ r₂ : List Char),
    '.' ∉ a₁ → '.' ∉ a₂ →
    (r₁ = [] ∨ ∃ t, r₁ = '.' :: t) → (r₂ = [] ∨ ∃ t, r₂ = '.' :: t) →
    a₁ ++ r₁ = a₂ ++ r₂ → a₁ = a₂ := by
  intro a₁
  induction a₁ with
  | nil =>
    intro r₁ a₂ r₂ h1 h2 hr1 hr2 heq
    cases a₂ with
    | nil => rfl
    | cons c cs =>
      exfalso
      rcases hr1 with h | ⟨t, ht⟩
      · subst h
        simp at heq
      · subst ht
        simp at heq
        exact h2 (heq.1 ▸ List.mem_cons_self c cs)
  | cons c cs ih =>
    intro r₁ a₂ r₂ h1 h2 hr1 hr2 heq
    cases a₂ with
    | nil =>
      exfalso
      rcases hr2 with h | ⟨t, ht⟩
      · subst h
        simp at heq
      · subst ht
        simp at heq
        exact h1 (heq.1 ▸ List.mem_cons_self c cs)
    | cons d ds =>
      simp only [List.cons_append, List.cons.injEq] at heq
      obtain ⟨hcd, hrest⟩ := heq
      subst hcd
      have := ih r₁ ds r₂ (fun hm => h1 (List.mem_cons_of_mem _ hm))
        (fun hm => h2 (List.mem_cons_of_mem _ hm)) hr1 hr2 hrest
      rw [this]

theorem pathAppend_data (fp n : String) (h : fp ≠ "") :
    (pathAppend fp n).data = fp.data ++ '.' :: n.data := by
  simp only [pathAppend, if_neg h]
  have h2 : (fp ++ "." ++ n).data = (fp.data ++ ['.']) ++ n.data := rfl
  rw [h2, List.append_assoc]
  rfl

theorem pathAppend_nil_data (n : String) : (pathAppend "" n).data = n.data := by
  simp [pathAppend]

end GoEnv

namespace GoEnv

theorem pathAppend_ne (fp n : String) (h : n ≠ "") : pathAppend fp n ≠ "" := by
  by_cases hfp : fp = ""
  · simpa [pathAppend, hfp] using h
  · intro hC
    have := congrArg String.data hC
    rw [pathAppend_data fp n hfp] at this
    simp at this

theorem namesOK_cons {f : StructField} {fs : List StructField}
    (h : namesOK (f :: fs) = true) :
    f.fname ≠ "" ∧ '.' ∉ f.fname.data ∧ namesOK fs = true := by
  simp [namesOK, Bool.and_eq_true, decide_eq_true_eq] at h
  exact ⟨h.1.1, h.1.2, h.2⟩

theorem wfVals_cons {v : RVal} {vs : List RVal} (h : wfVals (v :: vs) = true) :
    wfVal v = true ∧ wfVals vs = true := by
  simpa [wfVals, Bool.and_eq_true] using h

theorem wfVal_strct {ns : String} {nflds : List StructField} {nvals : List RVal}
    (h : wfVal (.strct ns nflds nvals) = true) :
    (nflds.map StructField.fname).Nodup ∧ namesOK nflds = true ∧ wfVals nvals = true := by
  simp [wfVal, Bool.and_eq_true, decide_eq_true_eq] at h
  exact ⟨h.1.1, h.1.2, h.2⟩

theorem fieldPaths_shape : ∀ (N : Nat) (flds : List StructField) (vals : List RVal)
    (fp : String), sizeOf vals ≤ N → namesOK flds = true → wfVals vals = true →
    ∀ q ∈ fieldPaths flds vals fp,
      ∃ nm rest, nm ∈ flds.map StructField.fname ∧ nm ≠ "" ∧ '.' ∉ nm.data ∧
        q.data = (pathAppend fp nm).data ++ rest ∧ (rest = [] ∨ ∃ t, rest = '.' :: t) := by
  intro N
  induction N with
  | zero =>
    intro flds vals fp hsz
    exfalso
    cases vals <;> simp [List.nil.sizeOf_spec, List.cons.sizeOf_spec] at hsz
  | succ n ihN =>
    intro flds vals fp hsz hnames hwf q hq
    match flds, vals with
    | [], _ => simp [fieldPaths] at hq
    | _ :: _, [] => simp [fieldPaths] at hq
    | f :: fs, v :: vs =>
      obtain ⟨hf1, hf2, hnames'⟩ := namesOK_cons hnames
      obtain ⟨hwfv, hwfs⟩ := wfVals_cons hwf
      have hszcons : 1 + sizeOf v + sizeOf vs ≤ n + 1 := by
        simpa [List.cons.sizeOf_spec] using hsz
      simp only [fieldPaths, List.cons_append, List.mem_cons, List.mem_append] at hq
      rcases hq with hq | hq | hq
      · exact ⟨f.fname, [], by simp, hf1, hf2, by simp [hq], Or.inl rfl⟩
      · cases hv : v with
        | strct ns nflds nvals =>
          rw [hv] at hq
          simp only [valPaths] at hq
          obtain ⟨hnodup, hnOK, hwfn⟩ := wfVal_strct (hv ▸ hwfv)
          have hszn : sizeOf nvals ≤ n := by
            rw [hv] at hszcons
            simp [RVal.strct.sizeOf_spec] at hszcons
            omega
          obtain ⟨m, r, hm, hm1, hm2, hqd, hr⟩ :=
            ihN nflds nvals (pathAppend fp f.fname) hszn hnOK hwfn q hq
          have hcur : pathAppend fp f.fname ≠ "" := pathAppend_ne fp f.fname hf1
          refine ⟨f.fname, '.' :: (m.data ++ r), by simp, hf1, hf2, ?_, Or.inr ⟨_, rfl⟩⟩
          rw [hqd, pathAppend_data _ m hcur]
          simp [List.append_assoc]
        | string s => rw [hv] at hq; simp [valPaths] at hq
        | bool b => rw [hv] at hq; simp [valPaths] at hq
        | int i => rw [hv] at hq; simp [valPaths] at hq
        | int64 i => rw [hv] at hq; simp [valPaths] at hq
        | uint i => rw [hv] at hq; simp [valPaths] at hq
        | uint64 i => rw [hv] at hq; simp [valPaths] at hq
        | float32 x => rw [hv] at hq; simp [valPaths] at hq
        | float64 x => rw [hv] at hq; simp [valPaths] at hq
        | duration d => rw [hv] at hq; simp [valPaths] at hq
        | url u => rw [hv] at hq; simp [valPaths] at hq
        | slice e xs => rw [hv] at hq; simp [valPaths] at hq
        | ptr e o => rw [hv] at hq; simp [valPaths] at hq
        | text t c => rw [hv] at hq; simp [valPaths] at hq
        | named t => rw [hv] at hq; simp [valPaths] at hq
      · have hszvs : sizeOf vs ≤ n := by omega
        obtain ⟨nm, rest, hnm, h1, h2, h3, h4⟩ :=
          ihN fs vs fp hszvs hnames' hwfs q hq
        exact ⟨nm, rest, by simp [List.mem_cons]; right; simpa using hnm, h1, h2, h3, h4⟩

end GoEnv

namespace GoEnv

theorem fieldPaths_nodup : ∀ (N : Nat) (flds : List StructField) (vals : List RVal)
    (fp : String), sizeOf vals ≤ N → (flds.map StructField.fname).Nodup →
    namesOK flds = true → wfVals vals = true →
    (fieldPaths flds vals fp).Nodup := by
  intro N
  induction N with
  | zero =>
    intro flds vals fp hsz
    exfalso
    cases vals <;> simp [List.nil.sizeOf_spec, List.cons.sizeOf_spec] at hsz
  | succ n ihN =>
    intro flds vals fp hsz hnodup hnames hwf
    match flds, vals with
    | [], _ => simp [fieldPaths]
    | _ :: _, [] => simp [fieldPaths]
    | f :: fs, v :: vs =>
      obtain ⟨hf1, hf2, hnames'⟩ := namesOK_cons hnames
      obtain ⟨hwfv, hwfs⟩ := wfVals_cons hwf
      have hszcons : 1 + sizeOf v + sizeOf vs ≤ n + 1 := by
        simpa [List.cons.sizeOf_spec] using hsz
      have hszvs : sizeOf vs ≤ n := by omega
      simp only [List.map_cons, List.nodup_cons] at hnodup
      obtain ⟨hfnot, hnodup'⟩ := hnodup
      -- shape of the nested paths of v
      have hvshape : ∀ q ∈ valPaths v (pathAppend fp f.fname),
          ∃ t, q.data = (pathAppend fp f.fname).data ++ '.' :: t := by
        intro q hq
        cases hv : v with
        | strct ns nflds nvals =>
          rw [hv] at hq
          simp only [valPaths] at hq
          obtain ⟨hnd, hnOK, hwfn⟩ := wfVal_strct (hv ▸ hwfv)
          have hszn : sizeOf nvals ≤ n := by
            rw [hv] at hszcons
            simp [RVal.strct.sizeOf_spec] at hszcons
            omega
          obtain ⟨m, r, hm, hm1, hm2, hqd, hr⟩ :=
            fieldPaths_shape n nflds nvals (pathAppend fp f.fname) hszn hnOK hwfn q hq
          have hcur : pathAppend fp f.fname ≠ "" := pathAppend_ne fp f.fname hf1
          refine ⟨m.data ++ r, ?_⟩
          rw [hqd, pathAppend_data _ m hcur]
          simp [List.append_assoc]
        | string s => rw [hv] at hq; simp [valPaths] at hq
        | bool b => rw [hv] at hq; simp [valPaths] at hq
        | int i => rw [hv] at hq; simp [valPaths] at hq
        | int64 i => rw [hv] at hq; simp [valPaths] at hq
        | uint i => rw [hv] at hq; simp [valPaths] at hq
        | uint64 i => rw [hv] at hq; simp [valPaths] at hq
        | float32 x => rw [hv] at hq; simp [valPaths] at hq
        | float64 x => rw [hv] at hq; simp [valPaths] at hq
        | duration d => rw [hv] at hq; simp [valPaths] at hq
        | url u => rw [hv] at hq; simp [valPaths] at hq
        | slice e xs => rw [hv] at hq; simp [valPaths] at hq
        | ptr e o => rw [hv] at hq; simp [valPaths] at hq
        | text t c => rw [hv] at hq; simp [valPaths] at hq
        | named t => rw [hv] at hq; simp [valPaths] at hq
      -- nested paths are nodup
      have hvnodup : (valPaths v (pathAppend fp f.fname)).Nodup := by
        cases hv : v with
        | strct ns nflds nvals =>
          simp only [valPaths]
          obtain ⟨hnd, hnOK, hwfn⟩ := wfVal_strct (hv ▸ hwfv)
          have hszn : sizeOf nvals ≤ n := by
            rw [hv] at hszcons
            simp [RVal.strct.sizeOf_spec] at hszcons
            omega
          exact ihN nflds nvals (pathAppend fp f.fname) hszn hnd hnOK hwfn
        | string s => simp [valPaths]
        | bool b => simp [valPaths]
        | int i => simp [valPaths]
        | int64 i => simp [valPaths]
        | uint i => simp [valPaths]
        | uint64 i => simp [valPaths]
        | float32 x => simp [valPaths]
        | float64 x => simp [valPaths]
        | duration d => simp [valPaths]
        | url u => simp [valPaths]
        | slice e xs => simp [valPaths]
        | ptr e o => simp [valPaths]
        | text t c => simp [valPaths]
        | named t => simp [valPaths]
      -- shape of head-group members, in one uniform form
      have hheadshape : ∀ q, (q = pathAppend fp f.fname ∨
            q ∈ valPaths v (pathAppend fp f.fname)) →
          ∃ rest, q.data = (pathAppend fp f.fname).data ++ rest ∧
            (rest = [] ∨ ∃ t, rest = '.' :: t) := by
        rintro q (rfl | hq)
        · exact ⟨[], by simp, Or.inl rfl⟩
        · obtain ⟨t, ht⟩ := hvshape q hq
          exact ⟨'.' :: t, ht, Or.inr ⟨t, rfl⟩⟩
      rw [fieldPaths]
      rw [List.cons_append, List.nodup_cons, List.nodup_append]
      refine ⟨?_, hvnodup, ihN fs vs fp hszvs hnodup' hnames' hwfs, ?_⟩
      · -- cur not among nested paths nor later paths
        rw [List.mem_append]
        rintro (hq | hq)
        · obtain ⟨t, ht⟩ := hvshape _ hq
          have := congrArg List.length ht
          simp at this
        · obtain ⟨nm, rest, hnm, h1, h2, h3, h4⟩ :=
            fieldPaths_shape n fs vs fp hszvs hnames' hwfs _ hq
          -- pathAppend fp f.fname = q with q shaped over nm ∈ fs: name clash
          have heq : (pathAppend fp f.fname).data ++ ([] : List Char) =
              (pathAppend fp nm).data ++ rest := by
            simpa using h3
          have hname : f.fname = nm := by
            by_cases hfp : fp = ""
            · subst hfp
              rw [pathAppend_nil_data, pathAppend_nil_data] at heq
              exact String.ext (dotfree_prefix_eq _ _ _ _ hf2 h2 (Or.inl rfl) h4 heq)
            · rw [pathAppend_data _ _ hfp, pathAppend_data _ _ hfp] at heq
              rw [List.append_assoc, List.append_assoc] at heq
              have heq2 := List.append_cancel_left heq
              simp only [List.cons_append, List.cons.injEq, true_and] at heq2
              exact String.ext (dotfree_prefix_eq _ _ _ _ hf2 h2 (Or.inl rfl) h4 heq2)
          exact hfnot (hname ▸ hnm)
      · -- nested paths disjoint from later paths
        intro q hq1 hq2
        obtain ⟨rest1, hs1, hr1⟩ := hheadshape q (Or.inr hq1)
        obtain ⟨nm, rest2, hnm, h1, h2, h3, h4⟩ :=
          fieldPaths_shape n fs vs fp hszvs hnames' hwfs q hq2
        have heq : (pathAppend fp f.fname).data ++ rest1 = (pathAppend fp nm).data ++ rest2 := by
          rw [← hs1, ← h3]
        have hname : f.fname = nm := by
          by_cases hfp : fp = ""
          · subst hfp
            rw [pathAppend_nil_data, pathAppend_nil_data] at heq
            exact String.ext (dotfree_prefix_eq _ _ _ _ hf2 h2 hr1 h4 heq)
          · rw [pathAppend_data _ _ hfp, pathAppend_data _ _ hfp] at heq
            rw [List.append_assoc, List.append_assoc] at heq
            have heq2 := List.append_cancel_left heq
            simp only [List.cons_append, List.cons.injEq, true_and] at heq2
            exact String.ext (dotfree_prefix_eq _ _ _ _ hf2 h2 hr1 h4 heq2)
        exact hfnot (hname ▸ hnm)

end GoEnv

namespace GoEnv

theorem doParseGo_nil2 (env : Env) (fm : CustomParsers) (f : StructField)
    (fs : List StructField) (sname fp p : String) (done : List RVal) (evs : Events)
    (errs : List GoErr) :
    doParseGo env fm (f :: fs) [] sname fp p done evs errs =
      .ok (done, evs, finishErr errs) := by
  rw [doParseGo]

theorem doParseGo_empty_step (env : Env) (fm : CustomParsers) (f : StructField)
    (fs : List StructField) (v : RVal) (vs : List RVal)
    (sname fp p : String) (done : List RVal) (evs : Events) (errs : List GoErr)
    (hp : ¬(v.isLivePtr = true ∧ f.exported = true))
    (hg : get env f p = .ok "") :
    doParseGo env fm (f :: fs) (v :: vs) sname fp p done evs errs =
      (match doParseEmpty env fm v (pathAppend fp f.fname) p with
        | .panicked m => .panicked m
        | .ok (v', evs2, some e) =>
          doParseGo env fm fs vs sname fp p (done ++ [v']) (evs ++ evs2) (errs ++ [e])
        | .ok (v', evs2, none) =>
          doParseGo env fm fs vs sname fp p (done ++ [v']) (evs ++ evs2) errs) := by
  rw [doParseGo, if_neg hp, hg]
  simp [pathAppend]

theorem noLives_cons {v : RVal} {vs : List RVal} (h : noLives (v :: vs) = true) :
    RVal.noLive v = true ∧ noLives vs = true := by
  simpa [noLives, Bool.and_eq_true] using h

theorem noLive_isLivePtr {v : RVal} (h : RVal.noLive v = true) :
    v.isLivePtr = false := by
  cases v with
  | ptr e o =>
    cases o with
    | none => rfl
    | some w => simp [RVal.noLive] at h
  | _ => rfl

theorem isStructKind_strct {v : RVal} (h : v.isStructKind = true) :
    ∃ ns nflds nvals, v = RVal.strct ns nflds nvals := by
  cases v <;> simp [RVal.isStructKind] at h
  exact ⟨_, _, _, rfl⟩

set_option maxHeartbeats 1000000 in
theorem doParseGo_paths : ∀ (N : Nat) (env : Env) (fm : CustomParsers)
    (flds : List StructField) (vals : List RVal) (sname fp p : String)
    (done : List RVal) (evs : Events) (errs : List GoErr)
    (out : List RVal × Events × Option GoErr),
    sizeOf vals ≤ N → noLives vals = true →
    doParseGo env fm flds vals sname fp p done evs errs = .ok out →
    ∃ S, List.Sublist S (fieldPaths flds vals fp) ∧
      errPathsOpt out.2.2 = errPathsList errs ++ S := by
  intro N
  induction N with
  | zero =>
    intro env fm flds vals sname fp p done evs errs out hsz
    exfalso
    cases vals <;> simp [List.nil.sizeOf_spec, List.cons.sizeOf_spec] at hsz
  | succ n ihN =>
    intro env fm flds vals sname fp p done evs errs out hsz hnl hout
    match flds, vals with
    | [], vals =>
      rw [doParseGo_nil] at hout
      cases hout
      refine ⟨[], List.nil_sublist _, ?_⟩
      simp [errPathsOpt_finishErr]
    | f :: fs, [] =>
      rw [doParseGo_nil2] at hout
      cases hout
      refine ⟨[], List.nil_sublist _, ?_⟩
      simp [errPathsOpt_finishErr]
    | f :: fs, v :: vs =>
      obtain ⟨hnlv, hnlvs⟩ := noLives_cons hnl
      have hlive : v.isLivePtr = false := noLive_isLivePtr hnlv
      have hp : ¬(v.isLivePtr = true ∧ f.exported = true) := by simp [hlive]
      have hszcons : 1 + sizeOf v + sizeOf vs ≤ n + 1 := by
        simpa [List.cons.sizeOf_spec] using hsz
      have hszvs : sizeOf vs ≤ n := by omega
      cases hg : get env f p with
      | error e =>
        rw [doParseGo_get_err env fm f fs v vs sname fp p done evs errs hp e hg] at hout
        obtain ⟨S, hS, hE⟩ := ihN _ _ _ _ _ _ _ _ _ _ _ hszvs hnlvs hout
        refine ⟨pathAppend fp f.fname :: S, ?_, ?_⟩
        · rw [fieldPaths, List.cons_append]
          exact List.Sublist.cons₂ _ (hS.trans (List.sublist_append_right _ _))
        · rw [hE, errPathsList_append]
          simp [errPathsList, errPaths, List.append_assoc]
      | ok value =>
        by_cases hval : value = ""
        · subst hval
          by_cases hsk : v.isStructKind = true
          · obtain ⟨ns, nflds, nvals, hv⟩ := isStructKind_strct hsk
            rw [doParseGo_empty_step env fm f fs v vs sname fp p done evs errs hp hg,
              hv] at hout
            simp only [doParseEmpty] at hout
            have hszn : sizeOf nvals ≤ n := by
              rw [hv] at hszcons
              simp [RVal.strct.sizeOf_spec] at hszcons
              omega
            have hnln : noLives nvals = true := by
              rw [hv] at hnlv
              simpa [RVal.noLive] using hnlv
            cases hdp : doParse env fm nflds nvals ns (pathAppend fp f.fname) p with
            | panicked m =>
              rw [hdp] at hout
              simp at hout
            | ok inner =>
              obtain ⟨nvals', evs2, eOpt⟩ := inner
              rw [hdp] at hout
              rw [doParse] at hdp
              obtain ⟨S2, hS2, hE2⟩ := ihN _ _ _ _ _ _ _ _ _ _ _ hszn hnln hdp
              simp only [errPathsList, List.nil_append] at hE2
              cases heo : eOpt with
              | some e2 =>
                rw [heo] at hout hE2
                simp only [errPathsOpt] at hE2
                simp only [] at hout
                obtain ⟨S3, hS3, hE3⟩ := ihN _ _ _ _ _ _ _ _ _ _ _ hszvs hnlvs hout
                refine ⟨S2 ++ S3, ?_, ?_⟩
                · rw [fieldPaths, List.cons_append]
                  refine List.Sublist.cons _ ?_
                  rw [hv, valPaths]
                  exact List.Sublist.append hS2 hS3
                · rw [hE3, errPathsList_append]
                  simp [errPathsList, hE2, List.append_assoc]
              | none =>
                rw [heo] at hout
                simp only [] at hout
                obtain ⟨S3, hS3, hE3⟩ := ihN _ _ _ _ _ _ _ _ _ _ _ hszvs hnlvs hout
                refine ⟨S3, ?_, hE3⟩
                rw [fieldPaths, List.cons_append]
                exact List.Sublist.cons _ (hS3.trans (List.sublist_append_right _ _))
          · rw [Bool.not_eq_true] at hsk
            rw [doParseGo_skip env fm f fs v vs sname fp p done evs errs hp hg hsk] at hout
            obtain ⟨S3, hS3, hE3⟩ := ihN _ _ _ _ _ _ _ _ _ _ _ hszvs hnlvs hout
            refine ⟨S3, ?_, hE3⟩
            rw [fieldPaths, List.cons_append]
            exact List.Sublist.cons _ (hS3.trans (List.sublist_append_right _ _))
        · cases hs : set v f value fm with
          | panicked m =>
            rw [doParseGo, if_neg hp, hg] at hout
            simp [hval, hs] at hout
          | err e =>
            rw [doParseGo_set_err env fm f fs v vs sname fp p done evs errs hp value hg
              hval e hs] at hout
            obtain ⟨S, hS, hE⟩ := ihN _ _ _ _ _ _ _ _ _ _ _ hszvs hnlvs hout
            refine ⟨pathAppend fp f.fname :: S, ?_, ?_⟩
            · rw [fieldPaths, List.cons_append]
              exact List.Sublist.cons₂ _ (hS.trans (List.sublist_append_right _ _))
            · rw [hE, errPathsList_append]
              simp [errPathsList, errPaths, List.append_assoc]
          | ok v' =>
            rw [doParseGo_set_ok env fm f fs v vs sname fp p done evs errs hp value hg
              hval v' hs] at hout
            obtain ⟨S, hS, hE⟩ := ihN _ _ _ _ _ _ _ _ _ _ _ hszvs hnlvs hout
            refine ⟨S, ?_, hE⟩
            rw [fieldPaths, List.cons_append]
            exact List.Sublist.cons _ (hS.trans (List.sublist_append_right _ _))

end GoEnv

namespace GoEnv

/-- C5: for every parse call on a well-formed destination (distinct,
non-empty, dot-free field names at every struct level, as Go guarantees,
and no live pointer fields, so the walk itself accumulates), the field
paths of the accumulated aggregate error are a sublist of the declaration
order path enumeration — fields are resolved in declaration order — and in
particular each field path occurs at most once among the errors, so the
error report for a fixed structure and environment is deterministic. -/
theorem C5_unique_error_paths (env : Env) (fm : CustomParsers)
    (sname pfx : String) (elem : Ty) (flds : List StructField) (vals : List RVal)
    (out : RVal × Events × Option GoErr)
    (hnames : (flds.map StructField.fname).Nodup)
    (hok : namesOK flds = true) (hwf : wfVals vals = true)
    (hnl : noLives vals = true)
    (hrun : ParseWithPrefixFuncs env
      (RVal.ptr elem (some (.strct sname flds vals))) pfx fm = .ok out) :
    List.Sublist (errPathsOpt out.2.2) (fieldPaths flds vals "") ∧
    (errPathsOpt out.2.2).Nodup := by
  rw [ParseWithPrefixFuncs] at hrun
  by_cases hpfx : pfx ≠ "" ∧ ¬strings.HasSuffix pfx "_"
  · rw [if_pos hpfx] at hrun
    cases hrun
    simp only [errPathsOpt, errPaths]
    exact ⟨List.nil_sublist _, List.nodup_nil⟩
  · rw [if_neg hpfx] at hrun
    simp only [parseDest] at hrun
    cases hdp : doParse env fm flds vals sname "" pfx with
    | panicked m =>
      rw [hdp] at hrun
      simp at hrun
    | ok inner =>
      obtain ⟨vals', events, errOpt⟩ := inner
      rw [hdp] at hrun
      simp only [] at hrun
      cases hrun
      rw [doParse] at hdp
      obtain ⟨S, hS, hE⟩ := doParseGo_paths (sizeOf vals) env fm flds vals sname "" pfx
        [] [] [] (vals', events, errOpt) (Nat.le_refl _) hnl hdp
      simp only [errPathsList, List.nil_append] at hE
      have hout2 : errPathsOpt errOpt = S := hE
      constructor
      · rw [hout2]
        exact hS
      · rw [hout2]
        exact hS.nodup (fieldPaths_nodup (sizeOf vals) flds vals ""
          (Nat.le_refl _) hnames hok hwf)

/-- Witness for C5: the three-failure example — three fields erroring in
declaration order yield the paths A, B, N, a duplicate-free sublist of the
declaration-order enumeration. -/
theorem C5_witness :
    List.Sublist
      (errPathsOpt (some (GoErr.multi
        [.fieldErr "A" "Three" (.missingRequired "A"),
         .fieldErr "B" "Three" (.missingRequired "B"),
         .fieldErr "N" "Three" (.numErr "ParseInt" "abc" .invalidSyntax)])))
      (fieldPaths threeErrFields [.string "", .string "", .int 0] "") ∧
    (errPathsOpt (some (GoErr.multi
        [.fieldErr "A" "Three" (.missingRequired "A"),
         .fieldErr "B" "Three" (.missingRequired "B"),
         .fieldErr "N" "Three" (.numErr "ParseInt" "abc" .invalidSyntax)]))).Nodup := by
  exact C5_unique_error_paths [("N", "abc")] [] "Three" ""
    (.strct "Three" threeErrFields) threeErrFields [.string "", .string "", .int 0]
    (threeErrVal, [], some (.multi
      [.fieldErr "A" "Three" (.missingRequired "A"),
       .fieldErr "B" "Three" (.missingRequired "B"),
       .fieldErr "N" "Three" (.numErr "ParseInt" "abc" .invalidSyntax)]))
    (by simp [threeErrFields, StructField.fname])
    (by simp [namesOK, threeErrFields, StructField.fname])
    (by simp [wfVals, wfVal, threeErrFields])
    (by simp [noLives, RVal.noLive])
    (by
      have h : Parse [("N", "abc")] threeErrVal =
          .ok (threeErrVal, [], some (.multi
            [.fieldErr "A" "Three" (.missingRequired "A"),
             .fieldErr "B" "Three" (.missingRequired "B"),
             .fieldErr "N" "Three" (.numErr "ParseInt" "abc" .invalidSyntax)])) := by
        simp [Parse, ParseWithPrefixFuncs, parseDest, doParse, doParseGo, doParseEmpty,
          threeErrVal, threeErrFields, get, set, strings.HasSuffix, os.LookupEnv, tagGet,
          tagLookup, strconv.ParseBool, strconv.ParseInt, strconv.digitsVal,
          strconv.digitsVal.go, strconv.digitVal, RVal.isLivePtr, StructField.exported,
          StructField.fname, StructField.tags, StructField.ty, finishErr, pathAppend,
          lookupParser, store, strings.ToLower]
      rw [Parse] at h
      rw [threeErrVal] at h
      exact h)

end GoEnv
